import Mathlib

/-!
Verification of the PCF pattern-file codec (`src/pattern.rs`): a shallow
embedding of `parse_pcf_file` and `write_pcf_file` over pure byte lists,
together with proofs of the specification's claims about the codec.

Modelling conventions:
* a byte is a `Nat` (values 0..255 where it matters);
* a Rust `String` is its list of Unicode scalar values, `RStr := List Nat`
  (Rust guarantees every `char` is a scalar value; the predicate `ValidStr`
  states that invariant explicitly where a proof needs it);
* the byte source/sink is a `List Nat`; `parse_pcf_file` consumes a prefix of
  the list and `write_pcf_file` produces the whole output;
* fallible or panicking code returns `Option`: `none` models both an I/O
  error (`io::Result::Err`) and an aborted call (a failed `assert_eq!` or an
  out-of-bounds `Vec` index, which in Rust panic and produce no result).
-/

namespace Pcf

/-- A Rust `String`, as its sequence of Unicode scalar values. -/
abbrev RStr := List Nat

/-- A Unicode scalar value: below the surrogate range or above it and at
most U+10FFFF.  Every `char` of a Rust `String` satisfies this. -/
def validChar (c : Nat) : Prop := c < 0xD800 ∨ (0xE000 ≤ c ∧ c < 0x110000)

instance (c : Nat) : Decidable (validChar c) := by unfold validChar; infer_instance

/-- The invariant of a Rust `String`: all characters are scalar values. -/
def ValidStr (v : RStr) : Prop := ∀ c ∈ v, validChar c

instance (v : RStr) : Decidable (ValidStr v) := by unfold ValidStr; infer_instance

/-- UTF-8 encoding of one scalar value (`char::encode_utf8`). -/
def utf8EncodeChar (c : Nat) : List Nat :=
  if c < 0x80 then [c]
  else if c < 0x800 then [0xC0 + c / 64, 0x80 + c % 64]
  else if c < 0x10000 then [0xE0 + c / 4096, 0x80 + c / 64 % 64, 0x80 + c % 64]
  else [0xF0 + c / 262144, 0x80 + c / 4096 % 64, 0x80 + c / 64 % 64, 0x80 + c % 64]

/-- UTF-8 encoding of a string (`str::as_bytes` of a Rust `String`). -/
def utf8Encode (v : RStr) : List Nat := v.flatMap utf8EncodeChar

/-- `utf8Len v` is the length in bytes of the UTF-8 encoding of `v`. -/
def utf8Len (v : RStr) : Nat := (utf8Encode v).length

/-- One step of the WHATWG/Unicode "maximal subpart" UTF-8 decoder that
`String::from_utf8_lossy` implements: given the first byte and the rest of
the input, return the decoded scalar value (U+FFFD for an invalid sequence)
and how many bytes were consumed (the whole maximal subpart for U+FFFD,
always at least one byte).  The byte-range table is Unicode Table 3-7,
exactly the ranges Rust's `core::str` validation accepts. -/
def decodeOne (b : Nat) (bs : List Nat) : Nat × Nat :=
  if b ≤ 0x7F then (b, 1)
  else if b < 0xC2 then (0xFFFD, 1)
  else if b ≤ 0xDF then
    match bs with
    | [] => (0xFFFD, 1)
    | b1 :: _ =>
      if 0x80 ≤ b1 ∧ b1 ≤ 0xBF then ((b - 0xC0) * 64 + (b1 - 0x80), 2)
      else (0xFFFD, 1)
  else if b ≤ 0xEF then
    match bs with
    | [] => (0xFFFD, 1)
    | b1 :: bs1 =>
      if (if b = 0xE0 then 0xA0 ≤ b1 ∧ b1 ≤ 0xBF
          else if b = 0xED then 0x80 ≤ b1 ∧ b1 ≤ 0x9F
          else 0x80 ≤ b1 ∧ b1 ≤ 0xBF) then
        match bs1 with
        | [] => (0xFFFD, 2)
        | b2 :: _ =>
          if 0x80 ≤ b2 ∧ b2 ≤ 0xBF then
            ((b - 0xE0) * 4096 + (b1 - 0x80) * 64 + (b2 - 0x80), 3)
          else (0xFFFD, 2)
      else (0xFFFD, 1)
  else if b ≤ 0xF4 then
    match bs with
    | [] => (0xFFFD, 1)
    | b1 :: bs1 =>
      if (if b = 0xF0 then 0x90 ≤ b1 ∧ b1 ≤ 0xBF
          else if b = 0xF4 then 0x80 ≤ b1 ∧ b1 ≤ 0x8F
          else 0x80 ≤ b1 ∧ b1 ≤ 0xBF) then
        match bs1 with
        | [] => (0xFFFD, 2)
        | b2 :: bs2 =>
          if 0x80 ≤ b2 ∧ b2 ≤ 0xBF then
            match bs2 with
            | [] => (0xFFFD, 3)
            | b3 :: _ =>
              if 0x80 ≤ b3 ∧ b3 ≤ 0xBF then
                ((b - 0xF0) * 262144 + (b1 - 0x80) * 4096 + (b2 - 0x80) * 64 + (b3 - 0x80), 4)
              else (0xFFFD, 3)
          else (0xFFFD, 2)
      else (0xFFFD, 1)
  else (0xFFFD, 1)

/-- The recursion of `utf8Lossy`, driven by a fuel argument so that it is
structurally recursive (any fuel at least the list length gives the same
result, since every step consumes at least one byte). -/
def utf8LossyAux : Nat → List Nat → List Nat
  | 0, _ => []
  | _ + 1, [] => []
  | fuel + 1, b :: bs =>
    (decodeOne b bs).1 :: utf8LossyAux fuel ((b :: bs).drop (decodeOne b bs).2)

/-- `String::from_utf8_lossy`: decode a byte list into the scalar values of
the resulting string, substituting U+FFFD for each maximal subpart of an
ill-formed subsequence. -/
def utf8Lossy (l : List Nat) : List Nat := utf8LossyAux l.length l

/-- Rust `char::is_whitespace`: the Unicode `White_Space` property. -/
def isWs (c : Nat) : Bool :=
  c = 0x20 || (0x9 ≤ c && c ≤ 0xD) || c = 0x85 || c = 0xA0 || c = 0x1680 ||
  (0x2000 ≤ c && c ≤ 0x200A) || c = 0x2028 || c = 0x2029 || c = 0x202F ||
  c = 0x205F || c = 0x3000

/-- Rust `str::trim_end`: drop trailing whitespace characters. -/
def trimEnd (v : RStr) : RStr := (v.reverse.dropWhile isWs).reverse

/-- Rust `s.splitn(2, ' ')` as consumed by the header parse: the part before
the first space, and (when a space exists) everything after it. -/
def splitn2 : RStr → RStr × Option RStr
  | [] => ([], none)
  | c :: cs =>
    if c = 32 then ([], some cs)
    else
      let p := splitn2 cs
      (c :: p.1, p.2)

/-- ASCII lowercasing.  `str::to_lowercase` performs full Unicode lowercasing;
on the inputs relevant here (the results "true"/"false" and the written
tokens "True"/"False") it coincides with ASCII lowercasing. -/
def asciiLower (v : RStr) : RStr :=
  v.map (fun c => if 65 ≤ c ∧ c ≤ 90 then c + 32 else c)

/-- The scalar values of the literal "true". -/
def trueStr : RStr := [116, 114, 117, 101]

/-- The scalar values of the literal "false". -/
def falseStr : RStr := [102, 97, 108, 115, 101]

/-- Rust `str::parse::<bool>`: exactly "true" or "false". -/
def parseBool (v : RStr) : Option Bool :=
  if v = trueStr then some true else if v = falseStr then some false else none

/-- Rust `str::parse::<i32>`: an optional sign, then one or more ASCII
digits, rejecting anything else and any value outside the `i32` range. -/
def parseI32 (v : RStr) : Option Int :=
  match v with
  | [] => none
  | c :: cs =>
    let neg : Bool := c = 45
    let ds : List Nat := if c = 43 || c = 45 then cs else v
    if ds = [] then none
    else if ds.all (fun d => 48 ≤ d && d ≤ 57) then
      let m : Nat := ds.foldl (fun a d => a * 10 + (d - 48)) 0
      let val : Int := if neg then -(m : Int) else (m : Int)
      if -2147483648 ≤ val ∧ val ≤ 2147483647 then some val else none
    else none

/-- `parse::<i32>().unwrap_or(0)`: the codec's lenient numeric-field read. -/
def parseOr0 (v : RStr) : Int := (parseI32 v).getD 0

/-- The recursion of `natDigits`, driven by a fuel argument so that it is
structurally recursive (fuel at least `n` always suffices). -/
def natDigitsAux : Nat → Nat → List Nat
  | 0, n => [48 + n]
  | fuel + 1, n =>
    if n < 10 then [48 + n] else natDigitsAux fuel (n / 10) ++ [48 + n % 10]

/-- The decimal digits (as scalar values, most significant first) of a `Nat`. -/
def natDigits (n : Nat) : List Nat := natDigitsAux n n

/-- Rust `i32::to_string`: canonical decimal form, sign only if negative. -/
def intToStr (n : Int) : RStr :=
  if n < 0 then 45 :: natDigits (-n).toNat else natDigits n.toNat

/-- Two's-complement wrap of an unbounded integer into the `i32` range,
the value an `i32` arithmetic result denotes. -/
def wrap32 (x : Int) : Int := (x + 2147483648) % 4294967296 - 2147483648

/-- Rust `as usize` on an `i32` value (64-bit target): sign-extend and
reinterpret, so a negative value wraps modulo 2^64. -/
def i32ToUsize (x : Int) : Nat := (x % 18446744073709551616).toNat

/-- The decoded structure `PatternFileData` (`src/pattern.rs` lines 8-23).
Rust's fixed-size arrays (`[i32; 8]`, `[String; 9]`) become lists whose
lengths are stated as hypotheses where a proof depends on them. -/
structure PatternFileData where
  compiled_flag : Bool
  version : RStr
  source_combo_index : Int
  pclk_source_indices : List Int
  vtime_reqd : List RStr
  cycle_time : List RStr
  pulse_time : List RStr
  clk_sources : List RStr
  start_addrs : List Int
  end_addrs : List Int
  loop_counts : List Int
  pattern_file_length : Int
  pattern_data : List (List Nat)
deriving DecidableEq, Repr

/-- `read_fixed(reader, 10)`: read exactly 10 bytes (an error if the source
is shorter), lossily decode them as UTF-8 and trim trailing whitespace. -/
def readFixed10 (s : List Nat) : Option (RStr × List Nat) :=
  if 10 ≤ s.length then some (trimEnd (utf8Lossy (s.take 10)), s.drop 10) else none

/-- `k` consecutive `read_fixed(…, 10)` calls. -/
def readK : Nat → List Nat → Option (List RStr × List Nat)
  | 0, s => some ([], s)
  | k + 1, s => do
    let (v, s1) ← readFixed10 s
    let (vs, s2) ← readK k s1
    some (v :: vs, s2)

/-- `k` consecutive `read_fixed(…, 10)?.parse().unwrap_or(0)` reads. -/
def readIntK (k : Nat) (s : List Nat) : Option (List Int × List Nat) :=
  (readK k s).map (fun p => (p.1.map parseOr0, p.2))

/-- The interleaved per-channel loop of `parse_pcf_file` (lines 110-122):
for each channel read `start_addrs[i]`, `end_addrs[i]`, `loop_counts[i]`. -/
def readChannels : Nat → List Nat → Option ((List Int × List Int × List Int) × List Nat)
  | 0, s => some (([], [], []), s)
  | k + 1, s => do
    let (a, s1) ← readFixed10 s
    let (b, s2) ← readFixed10 s1
    let (c, s3) ← readFixed10 s2
    let (r, s4) ← readChannels k s3
    some ((parseOr0 a :: r.1, parseOr0 b :: r.2.1, parseOr0 c :: r.2.2), s4)

/-- The matrix read loop of `parse_pcf_file` (lines 129-135): `cols * 18`
raw bytes consumed column-major (`for col … for bit … read_u8`), so the byte
at stream index `18*col + bit` lands in `pattern_data[bit][col]`; any short
read is an error. -/
def readMatrix (cols : Nat) (s : List Nat) : Option (List (List Nat) × List Nat) :=
  if 18 * cols ≤ s.length then
    some ((List.range 18).map (fun bit => (List.range cols).map (fun col => s.getD (18 * col + bit) 0)),
      s.drop (18 * cols))
  else none

/-- The column count computed by `parse_pcf_file` line 127:
`(pattern_file_length + 20) as usize` on an `i32`. -/
def parseColsFn (pfl : Int) : Nat := i32ToUsize (wrap32 (pfl + 20))

/-- The column count computed by `write_pcf_file` line 206, the identical
unguarded `(pattern_file_length + 20) as usize`. -/
def writeColsFn (pfl : Int) : Nat := i32ToUsize (wrap32 (pfl + 20))

/-!
`parse_pcf_file` (lines 45-152) over a pure byte source, written as a
cascade of one small function per sequential read so that each step can be
reasoned about on its own.  `pcfStepN ...` is "the rest of `parse_pcf_file`
after the N-th read", carrying the values read so far; the reads appear in
source order: header, `source_combo_index`, `pclk_source_indices`,
`vtime_reqd` (slot 8 then slots 0..7), `cycle_time`, `pulse_time`,
`clk_sources[1..=64]`, the interleaved start/end/loop channels,
`pattern_file_length`, and finally the matrix.  `none` models an
`io::Result::Err` (only truncation can produce one); trailing bytes after
the matrix are ignored, as the Rust function never reads them.
-/

/-- Matrix read (lines 124-135) and assembly of the result (lines 137-151). -/
def pcfStep12 (hdr : RStr) (pclk : List Int) (comboS v8 : RStr) (v07 : List RStr)
    (c8 : RStr) (c07 : List RStr) (p8 : RStr) (p07 : List RStr) (clk : List RStr)
    (chans : List Int × List Int × List Int) (pflS : RStr) (s : List Nat) :
    Option PatternFileData :=
  (readMatrix (parseColsFn (parseOr0 pflS)) s).bind fun h12 =>
  some { compiled_flag := (parseBool (asciiLower (splitn2 hdr).1)).getD false
         version := (splitn2 hdr).2.getD []
         source_combo_index := parseOr0 comboS
         pclk_source_indices := pclk
         vtime_reqd := v07 ++ [v8]
         cycle_time := c07 ++ [c8]
         pulse_time := p07 ++ [p8]
         clk_sources := [] :: clk
         start_addrs := chans.1
         end_addrs := chans.2.1
         loop_counts := chans.2.2
         pattern_file_length := parseOr0 pflS
         pattern_data := h12.1 }

/-- Read of `pattern_file_length` (lines 124-126). -/
def pcfStep11 (hdr : RStr) (pclk : List Int) (comboS v8 : RStr) (v07 : List RStr)
    (c8 : RStr) (c07 : List RStr) (p8 : RStr) (p07 : List RStr) (clk : List RStr)
    (chans : List Int × List Int × List Int) (s : List Nat) : Option PatternFileData :=
  (readFixed10 s).bind fun h11 =>
  pcfStep12 hdr pclk comboS v8 v07 c8 c07 p8 p07 clk chans h11.1 h11.2

/-- Read of the 8 interleaved channel triples (lines 106-122). -/
def pcfStep10 (hdr : RStr) (pclk : List Int) (comboS v8 : RStr) (v07 : List RStr)
    (c8 : RStr) (c07 : List RStr) (p8 : RStr) (p07 : List RStr) (clk : List RStr)
    (s : List Nat) : Option PatternFileData :=
  (readChannels 8 s).bind fun h10 =>
  pcfStep11 hdr pclk comboS v8 v07 c8 c07 p8 p07 clk h10.1 h10.2

/-- Read of `clk_sources[1..=64]` (lines 101-104). -/
def pcfStep9 (hdr : RStr) (pclk : List Int) (comboS v8 : RStr) (v07 : List RStr)
    (c8 : RStr) (c07 : List RStr) (p8 : RStr) (p07 : List RStr) (s : List Nat) :
    Option PatternFileData :=
  (readK 64 s).bind fun h9 =>
  pcfStep10 hdr pclk comboS v8 v07 c8 c07 p8 p07 h9.1 h9.2

/-- Read of `pulse_time[0..=7]` (lines 97-99). -/
def pcfStep8 (hdr : RStr) (pclk : List Int) (comboS v8 : RStr) (v07 : List RStr)
    (c8 : RStr) (c07 : List RStr) (p8 : RStr) (s : List Nat) : Option PatternFileData :=
  (readK 8 s).bind fun h8 =>
  pcfStep9 hdr pclk comboS v8 v07 c8 c07 p8 h8.1 h8.2

/-- Read of `pulse_time[8]` (line 96). -/
def pcfStep7 (hdr : RStr) (pclk : List Int) (comboS v8 : RStr) (v07 : List RStr)
    (c8 : RStr) (c07 : List RStr) (s : List Nat) : Option PatternFileData :=
  (readFixed10 s).bind fun h7 =>
  pcfStep8 hdr pclk comboS v8 v07 c8 c07 h7.1 h7.2

/-- Read of `cycle_time[0..=7]` (lines 91-93). -/
def pcfStep6 (hdr : RStr) (pclk : List Int) (comboS v8 : RStr) (v07 : List RStr)
    (c8 : RStr) (s : List Nat) : Option PatternFileData :=
  (readK 8 s).bind fun h6 =>
  pcfStep7 hdr pclk comboS v8 v07 c8 h6.1 h6.2

/-- Read of `cycle_time[8]` (line 90). -/
def pcfStep5 (hdr : RStr) (pclk : List Int) (comboS v8 : RStr) (v07 : List RStr)
    (s : List Nat) : Option PatternFileData :=
  (readFixed10 s).bind fun h5 =>
  pcfStep6 hdr pclk comboS v8 v07 h5.1 h5.2

/-- Read of `vtime_reqd[0..=7]` (lines 85-87). -/
def pcfStep4 (hdr : RStr) (pclk : List Int) (comboS v8 : RStr) (s : List Nat) :
    Option PatternFileData :=
  (readK 8 s).bind fun h4 =>
  pcfStep5 hdr pclk comboS v8 h4.1 h4.2

/-- Read of `vtime_reqd[8]` (line 84). -/
def pcfStep3 (hdr : RStr) (pclk : List Int) (comboS : RStr) (s : List Nat) :
    Option PatternFileData :=
  (readFixed10 s).bind fun h3 =>
  pcfStep4 hdr pclk comboS h3.1 h3.2

/-- Read of the 8 `pclk_source_indices` (lines 76-81). -/
def pcfStep2 (hdr comboS : RStr) (s : List Nat) : Option PatternFileData :=
  (readIntK 8 s).bind fun h2 =>
  pcfStep3 hdr h2.1 comboS h2.2

/-- Read of `source_combo_index` (lines 72-74). -/
def pcfStep1 (hdr : RStr) (s : List Nat) : Option PatternFileData :=
  (readFixed10 s).bind fun h1 =>
  pcfStep2 hdr h1.1 h1.2

/-- `parse_pcf_file`: read the header field (line 57), then the rest. -/
def parse_pcf_file (s0 : List Nat) : Option PatternFileData :=
  (readFixed10 s0).bind fun h0 =>
  pcfStep1 h0.1 h0.2

/-- `write_fixed(writer, val, 10)` (lines 158-166): the UTF-8 bytes of the
value, `resize`d to exactly 10 — padded with trailing spaces when shorter,
truncated at the byte level when longer. -/
def writeFixed (v : RStr) : List Nat :=
  (utf8Encode v ++ List.replicate (10 - (utf8Encode v).length) 32).take 10

/-- The scalar values written for the compiled flag: "True" or "False". -/
def boolStr (b : Bool) : RStr := if b then [84, 114, 117, 101] else [70, 97, 108, 115, 101]

/-- All fixed 10-byte fields of the file, in the order `write_pcf_file`
emits them (and `parse_pcf_file` consumes them): header, combo index, 8
pclk indices, the three 9-slot text arrays each with slot 8 first, the 64
persisted clock sources, the 8 interleaved channel triples, and the
pattern length.  126 fields in all.  Array fields are indexed positionally
(`getD` with the `Default` value), faithful to Rust's fixed-size arrays. -/
def headerFields (r : PatternFileData) : List RStr :=
  [boolStr r.compiled_flag ++ 32 :: r.version, intToStr r.source_combo_index] ++
  (List.range 8).map (fun i => intToStr (r.pclk_source_indices.getD i 0)) ++
  [r.vtime_reqd.getD 8 []] ++ (List.range 8).map (fun i => r.vtime_reqd.getD i []) ++
  [r.cycle_time.getD 8 []] ++ (List.range 8).map (fun i => r.cycle_time.getD i []) ++
  [r.pulse_time.getD 8 []] ++ (List.range 8).map (fun i => r.pulse_time.getD i []) ++
  (List.range' 1 64).map (fun i => r.clk_sources.getD i []) ++
  (List.range 8).flatMap (fun i =>
    [intToStr (r.start_addrs.getD i 0), intToStr (r.end_addrs.getD i 0),
     intToStr (r.loop_counts.getD i 0)]) ++
  [intToStr r.pattern_file_length]

/-- The 1260 header bytes `write_pcf_file` emits before the matrix. -/
def headerBytes (r : PatternFileData) : List Nat :=
  (headerFields r).flatMap writeFixed

/-- The matrix write loop of `write_pcf_file` (lines 208-212): for `col` in
`0..cols`, for `bit` in `0..18`, emit `pattern_data[bit][col]`.  `none`
models the panic of an out-of-bounds `Vec` index: the loop body indexes
`pattern_data[bit]` (needs at least 18 rows) and `row[col]` (needs every
visited row to have at least `cols` entries); with `cols = 0` the body
never runs and nothing is checked. -/
def encodeMatrix (rows : List (List Nat)) (cols : Nat) : Option (List Nat) :=
  if cols = 0 then some []
  else if 18 ≤ rows.length ∧ ∀ bit ∈ List.range 18, cols ≤ (rows.getD bit []).length then
    some ((List.range cols).flatMap (fun col =>
      (List.range 18).map (fun bit => (rows.getD bit []).getD col 0)))
  else none

/-- `write_pcf_file` after its `assert_eq!(data.clk_sources.len(), 65, …)`
(line 193) has passed: the fixed fields followed by the matrix bytes. -/
def writeAfterClkAssert (r : PatternFileData) : Option (List Nat) :=
  (encodeMatrix r.pattern_data (writeColsFn r.pattern_file_length)).map
    (fun mb => headerBytes r ++ mb)

/-- `write_pcf_file` (lines 154-217) over a pure byte sink.  `none` models
an aborted call: the failed `assert_eq!` on `clk_sources.len()` or an
out-of-bounds matrix index, both of which panic and complete no write. -/
def write_pcf_file (r : PatternFileData) : Option (List Nat) :=
  if r.clk_sources.length = 65 then writeAfterClkAssert r else none

/-! ### Lemmas about `trimEnd`, `splitn2` and `asciiLower` -/

/-- The string the decoder's `read_fixed` yields for the `i`-th 10-byte
field of the stream `s`. -/
def fieldAt (s : List Nat) (i : Nat) : RStr :=
  trimEnd (utf8Lossy ((s.drop (10 * i)).take 10))

/-- The column count the decoder derives from the stream: the
`pattern_file_length` field is at 10-byte field index 125 (byte 1250). -/
def sCols (s : List Nat) : Nat := parseColsFn (parseOr0 (fieldAt s 125))

/-- The record `parse_pcf_file` produces on a sufficiently long stream,
with every field expressed by its on-disk offset. -/
def decodeTotal (s : List Nat) : PatternFileData :=
  { compiled_flag := (parseBool (asciiLower (splitn2 (fieldAt s 0)).1)).getD false
    version := (splitn2 (fieldAt s 0)).2.getD []
    source_combo_index := parseOr0 (fieldAt s (1 + 0))
    pclk_source_indices := (List.range 8).map (fun i => parseOr0 (fieldAt s (2 + i)))
    vtime_reqd := (List.range 8).map (fun i => fieldAt s (11 + i)) ++ [fieldAt s (10 + 0)]
    cycle_time := (List.range 8).map (fun i => fieldAt s (20 + i)) ++ [fieldAt s (19 + 0)]
    pulse_time := (List.range 8).map (fun i => fieldAt s (29 + i)) ++ [fieldAt s (28 + 0)]
    clk_sources := [] :: (List.range 64).map (fun i => fieldAt s (37 + i))
    start_addrs := (List.range 8).map (fun i => parseOr0 (fieldAt s (101 + 3 * i)))
    end_addrs := (List.range 8).map (fun i => parseOr0 (fieldAt s (101 + (3 * i + 1))))
    loop_counts := (List.range 8).map (fun i => parseOr0 (fieldAt s (101 + (3 * i + 2))))
    pattern_file_length := parseOr0 (fieldAt s (125 + 0))
    pattern_data := (List.range 18).map (fun bit =>
      (List.range (sCols s)).map (fun col => s.getD (1260 + (18 * col + bit)) 0)) }

/-- The `i`-th fixed field `write_pcf_file` emits (0-based among the 126
fields), as a function of the index; `headerFields` lists the same strings
in order. -/
def hfField (r : PatternFileData) (i : Nat) : RStr :=
  if i = 0 then boolStr r.compiled_flag ++ 32 :: r.version
  else if i = 1 then intToStr r.source_combo_index
  else if i < 10 then intToStr (r.pclk_source_indices.getD (i - 2) 0)
  else if i = 10 then r.vtime_reqd.getD 8 []
  else if i < 19 then r.vtime_reqd.getD (i - 11) []
  else if i = 19 then r.cycle_time.getD 8 []
  else if i < 28 then r.cycle_time.getD (i - 20) []
  else if i = 28 then r.pulse_time.getD 8 []
  else if i < 37 then r.pulse_time.getD (i - 29) []
  else if i < 101 then r.clk_sources.getD (i - 36) []
  else if i < 125 then
    (if (i - 101) % 3 = 0 then intToStr (r.start_addrs.getD ((i - 101) / 3) 0)
     else if (i - 101) % 3 = 1 then intToStr (r.end_addrs.getD ((i - 101) / 3) 0)
     else intToStr (r.loop_counts.getD ((i - 101) / 3) 0))
  else intToStr r.pattern_file_length

/-- The matrix region `write_pcf_file` emits: column-major, 18 bytes per
column, `pattern_file_length + 20` columns. -/
def matBytes (r : PatternFileData) : List Nat :=
  (List.range (writeColsFn r.pattern_file_length)).flatMap (fun col =>
    (List.range 18).map (fun bit => (r.pattern_data.getD bit []).getD col 0))

/-- A text value that survives the fixed-field round trip unchanged: valid
scalars, at most 10 UTF-8 bytes, no trailing whitespace. -/
def GoodStr (v : RStr) : Prop := ValidStr v ∧ utf8Len v ≤ 10 ∧ trimEnd v = v

/-- An integer whose decimal form fits the 10-byte field (and is an `i32`). -/
def GoodInt (n : Int) : Prop := -999999999 ≤ n ∧ n ≤ 2147483647

instance (v : RStr) : Decidable (GoodStr v) := by unfold GoodStr; infer_instance

instance (n : Int) : Decidable (GoodInt n) := by unfold GoodInt; infer_instance

/-- The conditions under which a record round-trips bit-exactly through
`write_pcf_file` then `parse_pcf_file`: the Rust-typed array lengths (8/9/65
element arrays), every text field `GoodStr`, `clk_sources[0]` empty (it is
never persisted), every numeric field `GoodInt`, a `pattern_file_length` in
`[-20, 2147483627]`, and a matrix of exactly 18 rows ×
`pattern_file_length + 20` columns. -/
def RoundTripSafe (r : PatternFileData) : Prop :=
  r.pclk_source_indices.length = 8 ∧ r.vtime_reqd.length = 9 ∧ r.cycle_time.length = 9 ∧
  r.pulse_time.length = 9 ∧ r.clk_sources.length = 65 ∧ r.start_addrs.length = 8 ∧
  r.end_addrs.length = 8 ∧ r.loop_counts.length = 8 ∧
  ValidStr r.version ∧ trimEnd r.version = r.version ∧
  utf8Len (boolStr r.compiled_flag ++ 32 :: r.version) ≤ 10 ∧
  (∀ v ∈ r.vtime_reqd, GoodStr v) ∧ (∀ v ∈ r.cycle_time, GoodStr v) ∧
  (∀ v ∈ r.pulse_time, GoodStr v) ∧ (∀ v ∈ r.clk_sources, GoodStr v) ∧
  r.clk_sources.getD 0 [] = [] ∧
  GoodInt r.source_combo_index ∧ (∀ n ∈ r.pclk_source_indices, GoodInt n) ∧
  (∀ n ∈ r.start_addrs, GoodInt n) ∧ (∀ n ∈ r.end_addrs, GoodInt n) ∧
  (∀ n ∈ r.loop_counts, GoodInt n) ∧
  -20 ≤ r.pattern_file_length ∧ r.pattern_file_length ≤ 2147483627 ∧
  r.pattern_data.length = 18 ∧
  (∀ row ∈ r.pattern_data, row.length = (r.pattern_file_length + 20).toNat)

instance (r : PatternFileData) : Decidable (RoundTripSafe r) := by
  unfold RoundTripSafe
  infer_instance

/-- A minimal record: empty strings, zero integers, `pattern_file_length`
-20 (zero matrix columns), 18 empty matrix rows, 65 empty clock sources. -/
def trivRec : PatternFileData :=
  { compiled_flag := false
    version := []
    source_combo_index := 0
    pclk_source_indices := List.replicate 8 0
    vtime_reqd := List.replicate 9 []
    cycle_time := List.replicate 9 []
    pulse_time := List.replicate 9 []
    clk_sources := List.replicate 65 []
    start_addrs := List.replicate 8 0
    end_addrs := List.replicate 8 0
    loop_counts := List.replicate 8 0
    pattern_file_length := -20
    pattern_data := List.replicate 18 [] }

/-- A record whose `vtime_reqd[0]` is a single space: 1 byte when encoded,
but the decoder's trailing-whitespace trim erases it. -/
def c1CexRec : PatternFileData := { trivRec with vtime_reqd := [32] :: List.replicate 8 [] }

/-- A round-trip-safe sample record: version "v1", one matrix column. -/
def c1WitRec : PatternFileData :=
  { trivRec with
    compiled_flag := true
    version := [118, 49]
    source_combo_index := -7
    pattern_file_length := -19
    pattern_data := List.replicate 18 [7] }

/-- Declared matrix width 1 (`pattern_file_length` -19) but rows of width 3. -/
def c9Rec : PatternFileData :=
  { trivRec with pattern_file_length := -19, pattern_data := List.replicate 18 [1, 2, 3] }

/-- Declared matrix width 2 (`pattern_file_length` -18) but rows of width 1. -/
def c9RecSmall : PatternFileData :=
  { trivRec with pattern_file_length := -18, pattern_data := List.replicate 18 [9] }

/-- "abcdefgh" followed by U+FFFD: 11 UTF-8 bytes. -/
def c7CexStr : RStr := [97, 98, 99, 100, 101, 102, 103, 104, 0xFFFD]

/-- "abcdefghijk": 11 ASCII bytes. -/
def c7WitStr : RStr := [97, 98, 99, 100, 101, 102, 103, 104, 105, 106, 107]

/-- "abcdefghij": the first 10 bytes of `c7WitStr`. -/
def c7WitTrunc : RStr := [97, 98, 99, 100, 101, 102, 103, 104, 105, 106]

/-- A 1260-byte header region: 125 all-space fields, then the
`pattern_file_length` field holding the decimal form of `n`. -/
def c10Header (n : Int) : List Nat := List.replicate 1250 32 ++ writeFixed (intToStr n)

/-- An all-space stream: every numeric field is malformed (empty after
trimming), the declared length parses to 0, so 20 columns of matrix. -/
def c4Stream : List Nat := List.replicate 1620 32

/-- Every text field of the record fits in 10 bytes when encoded (the flag
and version share one 10-byte header field). -/
def TextFieldsLe10 (r : PatternFileData) : Prop :=
  utf8Len (boolStr r.compiled_flag ++ 32 :: r.version) ≤ 10 ∧
  (∀ v ∈ r.vtime_reqd, utf8Len v ≤ 10) ∧ (∀ v ∈ r.cycle_time, utf8Len v ≤ 10) ∧
  (∀ v ∈ r.pulse_time, utf8Len v ≤ 10) ∧ (∀ v ∈ r.clk_sources, utf8Len v ≤ 10)

instance (r : PatternFileData) : Decidable (TextFieldsLe10 r) := by
  unfold TextFieldsLe10
  infer_instance

/-! ### The claims -/

theorem decodeOne_snd_pos (b : Nat) (bs : List Nat) : 1 ≤ (decodeOne b bs).2 := by
  unfold decodeOne
  repeat' split
  all_goals simp

theorem decodeOne_snd_le (b : Nat) (bs : List Nat) :
    (decodeOne b bs).2 ≤ bs.length + 1 := by
  unfold decodeOne
  repeat' split
  all_goals simp

theorem utf8LossyAux_fuel : ∀ (fuel : Nat) (l : List Nat), l.length ≤ fuel →
    ∀ (fuel' : Nat), l.length ≤ fuel' → utf8LossyAux fuel l = utf8LossyAux fuel' l := by
  intro fuel
  induction fuel with
  | zero =>
    intro l hl fuel' _
    have hnil : l = [] := List.eq_nil_of_length_eq_zero (Nat.le_zero.mp hl)
    subst hnil
    cases fuel' <;> rfl
  | succ f ih =>
    intro l hl fuel' hl'
    match l with
    | [] => cases fuel' <;> rfl
    | b :: bs =>
      match fuel' with
      | 0 =>
        simp only [List.length_cons] at hl'
        omega
      | f' + 1 =>
        show (decodeOne b bs).1 :: utf8LossyAux f ((b :: bs).drop (decodeOne b bs).2) =
          (decodeOne b bs).1 :: utf8LossyAux f' ((b :: bs).drop (decodeOne b bs).2)
        congr 1
        have hpos := decodeOne_snd_pos b bs
        have h1 : ((b :: bs).drop (decodeOne b bs).2).length ≤ f := by
          simp only [List.length_drop, List.length_cons]
          simp only [List.length_cons] at hl
          omega
        have h2 : ((b :: bs).drop (decodeOne b bs).2).length ≤ f' := by
          simp only [List.length_drop, List.length_cons]
          simp only [List.length_cons] at hl'
          omega
        exact ih _ h1 f' h2

theorem utf8Lossy_nil : utf8Lossy [] = [] := rfl

/-- The defining unfolding of `utf8Lossy`. -/
theorem utf8Lossy_cons (b : Nat) (bs : List Nat) :
    utf8Lossy (b :: bs) =
      (decodeOne b bs).1 :: utf8Lossy ((b :: bs).drop (decodeOne b bs).2) := by
  have hpos := decodeOne_snd_pos b bs
  show (decodeOne b bs).1 :: utf8LossyAux bs.length ((b :: bs).drop (decodeOne b bs).2) = _
  congr 1
  exact utf8LossyAux_fuel bs.length ((b :: bs).drop (decodeOne b bs).2)
    (by simp only [List.length_drop, List.length_cons]; omega)
    ((b :: bs).drop (decodeOne b bs).2).length (Nat.le_refl _)

theorem natDigitsAux_fuel : ∀ (fuel n : Nat), n ≤ fuel →
    ∀ (fuel' : Nat), n ≤ fuel' → natDigitsAux fuel n = natDigitsAux fuel' n := by
  intro fuel
  induction fuel with
  | zero =>
    intro n hn fuel' _
    have h0 : n = 0 := Nat.le_zero.mp hn
    subst h0
    cases fuel' with
    | zero => rfl
    | succ f' => rfl
  | succ f ih =>
    intro n hn fuel' hn'
    cases fuel' with
    | zero =>
      have h0 : n = 0 := Nat.le_zero.mp hn'
      subst h0
      rfl
    | succ f' =>
      by_cases h10 : n < 10
      · show (if n < 10 then _ else _) = (if n < 10 then _ else _)
        rw [if_pos h10, if_pos h10]
      · show (if n < 10 then _ else _) = (if n < 10 then _ else _)
        rw [if_neg h10, if_neg h10]
        rw [ih (n / 10) (by omega) f' (by omega)]

/-- The defining unfolding of `natDigits`. -/
theorem natDigits_def (n : Nat) :
    natDigits n = if n < 10 then [48 + n] else natDigits (n / 10) ++ [48 + n % 10] := by
  by_cases hn : n < 10
  · rw [if_pos hn]
    unfold natDigits
    interval_cases n <;> rfl
  · rw [if_neg hn]
    unfold natDigits
    obtain ⟨m, rfl⟩ : ∃ m, n = m + 1 := ⟨n - 1, by omega⟩
    show (if m + 1 < 10 then _ else natDigitsAux m ((m + 1) / 10) ++ [48 + (m + 1) % 10]) = _
    rw [if_neg hn]
    rw [natDigitsAux_fuel m ((m + 1) / 10) (by omega) ((m + 1) / 10) (Nat.le_refl _)]

theorem trimEnd_append_space (v : RStr) : trimEnd (v ++ [32]) = trimEnd v := by
  simp [trimEnd, List.dropWhile, isWs]

theorem trimEnd_append_replicate_space (v : RStr) (k : Nat) :
    trimEnd (v ++ List.replicate k 32) = trimEnd v := by
  induction k with
  | zero => simp
  | succ n ih =>
    rw [List.replicate_succ', ← List.append_assoc, trimEnd_append_space, ih]

theorem dropWhile_eq_self_of_all {p : Nat → Bool} {l : List Nat}
    (h : ∀ c ∈ l, p c = false) : List.dropWhile p l = l := by
  cases l with
  | nil => rfl
  | cons a as => rw [List.dropWhile_cons, h a (by simp), if_neg (by simp)]

theorem trimEnd_of_all_not_ws (v : RStr) (h : ∀ c ∈ v, isWs c = false) :
    trimEnd v = v := by
  unfold trimEnd
  rw [dropWhile_eq_self_of_all (fun c hc => h c (List.mem_reverse.mp hc))]
  exact List.reverse_reverse v

/-- A nonempty string unchanged by `trimEnd` keeps a whole string it ends:
`trimEnd (v ++ w) = v ++ w`. -/
theorem trimEnd_append_not_ws (v w : RStr) (hw : trimEnd w = w) (hne : w ≠ []) :
    trimEnd (v ++ w) = v ++ w := by
  have hrev : w.reverse ≠ [] := by simpa using hne
  obtain ⟨x, xs, hxs⟩ : ∃ x xs, w.reverse = x :: xs := by
    cases h : w.reverse with
    | nil => exact absurd h hrev
    | cons a as => exact ⟨a, as, rfl⟩
  have hx : isWs x = false := by
    by_contra hx
    simp only [Bool.not_eq_false] at hx
    have heq : trimEnd w = (List.dropWhile isWs xs).reverse := by
      unfold trimEnd
      rw [hxs, List.dropWhile_cons, hx, if_pos rfl]
    rw [hw] at heq
    have h1 : w.length ≤ xs.length := by
      rw [heq]
      simpa using (List.dropWhile_sublist isWs : (xs.dropWhile isWs).Sublist xs).length_le
    have h2 : w.length = xs.length + 1 := by
      have := congrArg List.length hxs
      simpa using this
    omega
  unfold trimEnd
  rw [List.reverse_append, hxs, List.cons_append, List.dropWhile_cons, hx, if_neg (by simp),
    ← List.cons_append, ← hxs, ← List.reverse_append]
  exact List.reverse_reverse _

/-- `splitn2` on a string with no space followed by a space: splits there. -/
theorem splitn2_append (a rest : RStr) (ha : ∀ c ∈ a, c ≠ 32) :
    splitn2 (a ++ 32 :: rest) = (a, some rest) := by
  induction a with
  | nil => simp [splitn2]
  | cons c cs ih =>
    have hc : c ≠ 32 := ha c (by simp)
    have ih2 := ih (fun x hx => ha x (by simp [hx]))
    simp only [List.cons_append, splitn2, if_neg hc, List.append_eq, ih2]

/-- `splitn2` on a string with no space at all: one part, no remainder. -/
theorem splitn2_no_space (a : RStr) (ha : ∀ c ∈ a, c ≠ 32) :
    splitn2 a = (a, none) := by
  induction a with
  | nil => rfl
  | cons c cs ih =>
    have hc : c ≠ 32 := ha c (by simp)
    have ih2 := ih (fun x hx => ha x (by simp [hx]))
    simp only [splitn2, if_neg hc, ih2]


/-! ### The lossy decoder inverts the encoder on valid strings -/

/-- Decoding one encoded scalar value: the decoder consumes exactly the
bytes `utf8EncodeChar` produced and returns the original scalar. -/
theorem utf8Lossy_encChar (c : Nat) (hc : validChar c) (t : List Nat) :
    utf8Lossy (utf8EncodeChar c ++ t) = c :: utf8Lossy t := by
  unfold utf8EncodeChar
  by_cases h1 : c < 0x80
  · rw [if_pos h1]
    have hd : decodeOne c t = (c, 1) := by
      unfold decodeOne
      rw [if_pos (by omega)]
    simp only [List.cons_append, List.nil_append, utf8Lossy_cons, hd, List.drop_succ_cons,
      List.drop_zero]
  · rw [if_neg h1]
    by_cases h2 : c < 0x800
    · rw [if_pos h2]
      have hd : decodeOne (0xC0 + c / 64) ((0x80 + c % 64) :: t) = (c, 2) := by
        unfold decodeOne
        rw [if_neg (by intro hh; omega), if_neg (by intro hh; omega), if_pos (by omega)]
        show (if 0x80 ≤ 0x80 + c % 64 ∧ 0x80 + c % 64 ≤ 0xBF then
          ((0xC0 + c / 64 - 0xC0) * 64 + (0x80 + c % 64 - 0x80), 2) else (0xFFFD, 1)) = (c, 2)
        rw [if_pos (by constructor <;> omega)]
        have hv : (0xC0 + c / 64 - 0xC0) * 64 + (0x80 + c % 64 - 0x80) = c := by omega
        rw [hv]
      simp only [List.cons_append, List.nil_append, utf8Lossy_cons, hd, List.drop_succ_cons,
        List.drop_zero]
    · rw [if_neg h2]
      by_cases h3 : c < 0x10000
      · rw [if_pos h3]
        have hsur : c < 0xD800 ∨ 0xE000 ≤ c := by
          rcases hc with h | h
          · exact Or.inl h
          · exact Or.inr h.1
        have hb1 : (if 0xE0 + c / 4096 = 0xE0 then
            0xA0 ≤ 0x80 + c / 64 % 64 ∧ 0x80 + c / 64 % 64 ≤ 0xBF
          else if 0xE0 + c / 4096 = 0xED then
            0x80 ≤ 0x80 + c / 64 % 64 ∧ 0x80 + c / 64 % 64 ≤ 0x9F
          else 0x80 ≤ 0x80 + c / 64 % 64 ∧ 0x80 + c / 64 % 64 ≤ 0xBF) := by
          by_cases he0 : 0xE0 + c / 4096 = 0xE0
          · rw [if_pos he0]
            constructor <;> omega
          · rw [if_neg he0]
            by_cases hed : 0xE0 + c / 4096 = 0xED
            · rw [if_pos hed]
              constructor <;> omega
            · rw [if_neg hed]
              constructor <;> omega
        have hd : decodeOne (0xE0 + c / 4096) ((0x80 + c / 64 % 64) :: (0x80 + c % 64) :: t) = (c, 3) := by
          unfold decodeOne
          rw [if_neg (by intro hh; omega), if_neg (by intro hh; omega), if_neg (by intro hh; omega), if_pos (by omega)]
          show (if (if 0xE0 + c / 4096 = 0xE0 then _ else if 0xE0 + c / 4096 = 0xED then _ else _) then _ else _) = (c, 3)
          rw [if_pos hb1]
          show (if 0x80 ≤ 0x80 + c % 64 ∧ 0x80 + c % 64 ≤ 0xBF then
            ((0xE0 + c / 4096 - 0xE0) * 4096 + (0x80 + c / 64 % 64 - 0x80) * 64 + (0x80 + c % 64 - 0x80), 3)
            else (0xFFFD, 2)) = (c, 3)
          rw [if_pos (by constructor <;> omega)]
          have hv : (0xE0 + c / 4096 - 0xE0) * 4096 + (0x80 + c / 64 % 64 - 0x80) * 64 + (0x80 + c % 64 - 0x80) = c := by
            omega
          rw [hv]
        simp only [List.cons_append, List.nil_append, utf8Lossy_cons, hd, List.drop_succ_cons,
          List.drop_zero]
      · rw [if_neg h3]
        have hlt : c < 0x110000 := by
          rcases hc with h | h
          · omega
          · exact h.2
        have hb1 : (if 0xF0 + c / 262144 = 0xF0 then
            0x90 ≤ 0x80 + c / 4096 % 64 ∧ 0x80 + c / 4096 % 64 ≤ 0xBF
          else if 0xF0 + c / 262144 = 0xF4 then
            0x80 ≤ 0x80 + c / 4096 % 64 ∧ 0x80 + c / 4096 % 64 ≤ 0x8F
          else 0x80 ≤ 0x80 + c / 4096 % 64 ∧ 0x80 + c / 4096 % 64 ≤ 0xBF) := by
          by_cases hf0 : 0xF0 + c / 262144 = 0xF0
          · rw [if_pos hf0]
            constructor <;> omega
          · rw [if_neg hf0]
            by_cases hf4 : 0xF0 + c / 262144 = 0xF4
            · rw [if_pos hf4]
              constructor <;> omega
            · rw [if_neg hf4]
              constructor <;> omega
        have hd : decodeOne (0xF0 + c / 262144)
            ((0x80 + c / 4096 % 64) :: (0x80 + c / 64 % 64) :: (0x80 + c % 64) :: t) = (c, 4) := by
          unfold decodeOne
          rw [if_neg (by intro hh; omega), if_neg (by intro hh; omega), if_neg (by intro hh; omega), if_neg (by intro hh; omega),
            if_pos (by omega)]
          show (if (if 0xF0 + c / 262144 = 0xF0 then _ else if 0xF0 + c / 262144 = 0xF4 then _ else _) then _ else _) = (c, 4)
          rw [if_pos hb1]
          show (if 0x80 ≤ 0x80 + c / 64 % 64 ∧ 0x80 + c / 64 % 64 ≤ 0xBF then _ else (0xFFFD, 2)) = (c, 4)
          rw [if_pos (by constructor <;> omega)]
          show (if 0x80 ≤ 0x80 + c % 64 ∧ 0x80 + c % 64 ≤ 0xBF then
            ((0xF0 + c / 262144 - 0xF0) * 262144 + (0x80 + c / 4096 % 64 - 0x80) * 4096 +
              (0x80 + c / 64 % 64 - 0x80) * 64 + (0x80 + c % 64 - 0x80), 4) else (0xFFFD, 3)) = (c, 4)
          rw [if_pos (by constructor <;> omega)]
          have hv : (0xF0 + c / 262144 - 0xF0) * 262144 + (0x80 + c / 4096 % 64 - 0x80) * 4096 +
              (0x80 + c / 64 % 64 - 0x80) * 64 + (0x80 + c % 64 - 0x80) = c := by
            omega
          rw [hv]
        simp only [List.cons_append, List.nil_append, utf8Lossy_cons, hd, List.drop_succ_cons,
          List.drop_zero]

/-- `from_utf8_lossy` inverts `utf8Encode` on a valid string, leaving any
appended bytes to be decoded on their own. -/
theorem utf8Lossy_encode (v : RStr) (hv : ValidStr v) (t : List Nat) :
    utf8Lossy (utf8Encode v ++ t) = v ++ utf8Lossy t := by
  induction v with
  | nil => simp [utf8Encode]
  | cons c cs ih =>
    have hc : validChar c := hv c (by simp)
    have hcs : ValidStr cs := fun x hx => hv x (by simp [hx])
    show utf8Lossy ((c :: cs).flatMap utf8EncodeChar ++ t) = _
    rw [List.flatMap_cons, List.append_assoc]
    rw [utf8Lossy_encChar c hc _]
    show c :: utf8Lossy (utf8Encode cs ++ t) = c :: cs ++ utf8Lossy t
    rw [ih hcs]
    rfl

theorem utf8Lossy_encode_eq (v : RStr) (hv : ValidStr v) :
    utf8Lossy (utf8Encode v) = v := by
  have h := utf8Lossy_encode v hv []
  rw [List.append_nil, utf8Lossy_nil, List.append_nil] at h
  exact h

/-- Space characters are valid and encode to themselves. -/
theorem utf8Encode_replicate_space (k : Nat) :
    utf8Encode (List.replicate k 32) = List.replicate k 32 := by
  induction k with
  | zero => rfl
  | succ n ih =>
    rw [List.replicate_succ]
    show utf8EncodeChar 32 ++ utf8Encode (List.replicate n 32) = _
    rw [ih]
    rfl

theorem utf8Len_append_char (v : RStr) (c : Nat) :
    utf8Len (v ++ [c]) = utf8Len v + (utf8EncodeChar c).length := by
  simp [utf8Len, utf8Encode]

/-! ### `writeFixed` and the field-level round trip -/

theorem writeFixed_length (v : RStr) : (writeFixed v).length = 10 := by
  unfold writeFixed
  simp only [List.length_take, List.length_append, List.length_replicate]
  omega

theorem writeFixed_of_le (v : RStr) (h : utf8Len v <= 10) :
    writeFixed v = utf8Encode v ++ List.replicate (10 - utf8Len v) 32 := by
  unfold utf8Len at h
  show (utf8Encode v ++ List.replicate (10 - (utf8Encode v).length) 32).take 10 = _
  rw [List.take_of_length_le]
  · rfl
  · simp only [List.length_append, List.length_replicate]
    omega

theorem utf8Lossy_replicate_space (k : Nat) :
    utf8Lossy (List.replicate k 32) = List.replicate k 32 := by
  have h := utf8Lossy_encode_eq (List.replicate k 32)
    (fun c hc => by
      have hc32 : c = 32 := List.eq_of_mem_replicate hc
      subst hc32
      exact Or.inl (by omega))
  rwa [utf8Encode_replicate_space] at h

/-- The string persisted as a fixed field by `write_fixed` is recovered
exactly by the `read_fixed` post-processing (lossy decode, then trim),
provided it is valid, fits in 10 bytes and carries no trailing whitespace. -/
theorem fieldRT (v : RStr) (hv : ValidStr v) (hlen : utf8Len v <= 10)
    (htrim : trimEnd v = v) :
    trimEnd (utf8Lossy (writeFixed v)) = v := by
  rw [writeFixed_of_le v hlen, utf8Lossy_encode v hv, utf8Lossy_replicate_space,
    trimEnd_append_replicate_space, htrim]

/-! ### Decimal printing and parsing of integers -/

theorem natDigits_ne_nil (n : Nat) : natDigits n ≠ [] := by
  rw [natDigits_def]
  split
  · simp
  · simp

theorem natDigits_mem (n : Nat) : ∀ d ∈ natDigits n, 48 ≤ d ∧ d ≤ 57 := by
  induction n using Nat.strong_induction_on with
  | _ n ih =>
    rw [natDigits_def]
    by_cases h : n < 10
    · rw [if_pos h]
      intro d hd
      simp at hd
      omega
    · rw [if_neg h]
      intro d hd
      rw [List.mem_append] at hd
      rcases hd with hd | hd
      · exact ih (n / 10) (Nat.div_lt_self (by omega) (by omega)) d hd
      · simp at hd
        omega

theorem natDigits_foldl (n : Nat) : ∀ a : Nat,
    (natDigits n).foldl (fun x d => x * 10 + (d - 48)) a =
      a * 10 ^ (natDigits n).length + n := by
  induction n using Nat.strong_induction_on with
  | _ n ih =>
    intro a
    by_cases h : n < 10
    · rw [natDigits_def, if_pos h]
      simp only [List.foldl_cons, List.foldl_nil, List.length_cons, List.length_nil, pow_one,
        pow_zero]
      omega
    · conv_lhs => rw [natDigits_def, if_neg h]
      conv_rhs => rw [natDigits_def, if_neg h]
      rw [List.foldl_append, ih (n / 10) (Nat.div_lt_self (by omega) (by omega)) a]
      simp only [List.foldl, List.length_append, List.length_cons, List.length_nil]
      have hpow : 10 ^ ((natDigits (n / 10)).length + (0 + 1)) =
          10 ^ (natDigits (n / 10)).length * 10 := by
        rw [pow_succ]
      rw [hpow]
      have : 48 + n % 10 - 48 = n % 10 := by omega
      rw [this]
      have hmod := Nat.div_add_mod n 10
      ring_nf
      omega

theorem natDigits_val (n : Nat) :
    (natDigits n).foldl (fun x d => x * 10 + (d - 48)) 0 = n := by
  rw [natDigits_foldl n 0]
  simp

theorem natDigits_length_le (k : Nat) : ∀ n : Nat, 1 ≤ k → n < 10 ^ k →
    (natDigits n).length ≤ k := by
  induction k with
  | zero => omega
  | succ p ih =>
    intro n _ hn
    by_cases h : n < 10
    · rw [natDigits_def, if_pos h]
      simp
    · rw [natDigits_def, if_neg h]
      have hp : 1 ≤ p := by
        by_contra hp
        have : p = 0 := by omega
        subst this
        simp at hn
        omega
      have hdiv : n / 10 < 10 ^ p := by
        rw [Nat.div_lt_iff_lt_mul (by omega : (0 : Nat) < 10)]
        rw [pow_succ] at hn
        omega
      have := ih (n / 10) hp hdiv
      simp only [List.length_append, List.length_cons, List.length_nil]
      omega

theorem intToStr_mem (n : Int) : ∀ c ∈ intToStr n, 45 ≤ c ∧ c ≤ 57 := by
  unfold intToStr
  split
  · intro c hc
    rcases List.mem_cons.mp hc with h | h
    · omega
    · have := natDigits_mem _ c h
      omega
  · intro c hc
    have := natDigits_mem _ c hc
    omega

theorem utf8Encode_ascii (v : RStr) (h : ∀ c ∈ v, c < 0x80) : utf8Encode v = v := by
  induction v with
  | nil => rfl
  | cons c cs ih =>
    show utf8EncodeChar c ++ utf8Encode cs = c :: cs
    rw [ih (fun x hx => h x (by simp [hx]))]
    unfold utf8EncodeChar
    rw [if_pos (h c (by simp))]
    rfl

theorem intToStr_valid (n : Int) : ValidStr (intToStr n) := by
  intro c hc
  have := intToStr_mem n c hc
  exact Or.inl (by omega)

theorem utf8Encode_intToStr (n : Int) : utf8Encode (intToStr n) = intToStr n :=
  utf8Encode_ascii _ (fun c hc => by have := intToStr_mem n c hc; omega)

theorem utf8Len_intToStr (n : Int) : utf8Len (intToStr n) = (intToStr n).length := by
  unfold utf8Len
  rw [utf8Encode_intToStr]

theorem isWs_eq_false_of_ge (c : Nat) (h1 : 45 ≤ c) (h2 : c ≤ 57) : isWs c = false := by
  simp only [isWs]
  simp only [Bool.or_eq_false_iff, Bool.and_eq_false_iff]
  refine ⟨⟨⟨⟨⟨⟨⟨⟨⟨⟨?_, ?_⟩, ?_⟩, ?_⟩, ?_⟩, ?_⟩, ?_⟩, ?_⟩, ?_⟩, ?_⟩, ?_⟩
  all_goals simp
  all_goals omega

theorem trimEnd_intToStr (n : Int) : trimEnd (intToStr n) = intToStr n := by
  apply trimEnd_of_all_not_ws
  intro c hc
  have := intToStr_mem n c hc
  exact isWs_eq_false_of_ge c this.1 this.2

theorem intToStr_length_le (n : Int) (h1 : -999999999 ≤ n) (h2 : n ≤ 2147483647) :
    (intToStr n).length ≤ 10 := by
  unfold intToStr
  split
  · have hlt : (-n).toNat < 10 ^ 9 := by omega
    have := natDigits_length_le 9 (-n).toNat (by omega) hlt
    simp only [List.length_cons]
    omega
  · have hlt : n.toNat < 10 ^ 10 := by omega
    exact natDigits_length_le 10 n.toNat (by omega) hlt

/-- `parse::<i32>` on a pure digit string recovers the digits' value. -/
theorem parseI32_digits (c : Nat) (cs : List Nat)
    (hd : ∀ d ∈ c :: cs, 48 ≤ d ∧ d ≤ 57)
    (hval : (c :: cs).foldl (fun x d => x * 10 + (d - 48)) 0 ≤ 2147483647) :
    parseI32 (c :: cs) =
      some (((c :: cs).foldl (fun x d => x * 10 + (d - 48)) 0 : Nat) : Int) := by
  have hc := hd c (by simp)
  have h43 : (c = 43 : Bool) = false := by
    simp
    omega
  have h45 : (c = 45 : Bool) = false := by
    simp
    omega
  simp only [parseI32, h43, h45, Bool.or_false, Bool.false_eq_true, if_false]
  rw [if_neg (by simp : ¬(c :: cs = []))]
  rw [if_pos (by
    rw [List.all_eq_true]
    intro d hdm
    have := hd d hdm
    simp
    omega)]
  have hrange : (-2147483648 : Int) ≤ (((c :: cs).foldl (fun a d => a * 10 + (d - 48)) 0 : Nat) : Int) ∧
      (((c :: cs).foldl (fun a d => a * 10 + (d - 48)) 0 : Nat) : Int) ≤ 2147483647 := by
    constructor
    · exact le_trans (by norm_num) (Int.natCast_nonneg _)
    · exact_mod_cast hval
  rw [if_pos hrange]

/-- `parse::<i32>` on a minus sign followed by digits. -/
theorem parseI32_neg_digits (c : Nat) (cs : List Nat)
    (hd : ∀ d ∈ c :: cs, 48 ≤ d ∧ d ≤ 57)
    (hval : (c :: cs).foldl (fun x d => x * 10 + (d - 48)) 0 ≤ 2147483648) :
    parseI32 (45 :: c :: cs) =
      some (-(((c :: cs).foldl (fun x d => x * 10 + (d - 48)) 0 : Nat) : Int)) := by
  simp only [parseI32]
  norm_num
  refine ⟨by simp, ⟨hd c (by simp), fun x hx => hd x (by simp [hx])⟩, fun h => ?_⟩
  have hm := Int.natCast_nonneg (List.foldl (fun a d => a * 10 + (d - 48)) (c - 48) cs)
  have hP : List.foldl (fun a d => a * 10 + (d - 48)) (c - 48) cs ≤ 2147483648 := by
    have h0 : List.foldl (fun x d => x * 10 + (d - 48)) 0 (c :: cs) =
        List.foldl (fun x d => x * 10 + (d - 48)) (c - 48) cs := by
      simp [List.foldl_cons]
    rw [h0] at hval
    exact hval
  exact absurd (h hP) (by omega)

/-- `i32::to_string` parses back to the same value for every `i32`. -/
theorem parseI32_intToStr (n : Int) (h1 : -2147483648 ≤ n) (h2 : n ≤ 2147483647) :
    parseI32 (intToStr n) = some n := by
  unfold intToStr
  by_cases hneg : n < 0
  · rw [if_pos hneg]
    obtain ⟨c, cs, hcc⟩ : ∃ c cs, natDigits (-n).toNat = c :: cs := by
      cases h : natDigits (-n).toNat with
      | nil => exact absurd h (natDigits_ne_nil _)
      | cons c cs => exact ⟨c, cs, rfl⟩
    have hdig : ∀ d ∈ c :: cs, 48 ≤ d ∧ d ≤ 57 := by
      rw [← hcc]
      exact natDigits_mem _
    have hfold : (c :: cs).foldl (fun x d => x * 10 + (d - 48)) 0 = (-n).toNat := by
      rw [← hcc]
      exact natDigits_val _
    rw [hcc, parseI32_neg_digits c cs hdig (by rw [hfold]; omega), hfold]
    congr 1
    omega
  · rw [if_neg hneg]
    obtain ⟨c, cs, hcc⟩ : ∃ c cs, natDigits n.toNat = c :: cs := by
      cases h : natDigits n.toNat with
      | nil => exact absurd h (natDigits_ne_nil _)
      | cons c cs => exact ⟨c, cs, rfl⟩
    have hdig : ∀ d ∈ c :: cs, 48 ≤ d ∧ d ≤ 57 := by
      rw [← hcc]
      exact natDigits_mem _
    have hfold : (c :: cs).foldl (fun x d => x * 10 + (d - 48)) 0 = n.toNat := by
      rw [← hcc]
      exact natDigits_val _
    rw [hcc, parseI32_digits c cs hdig (by rw [hfold]; omega), hfold]
    congr 1
    omega

theorem parseOr0_intToStr (n : Int) (h1 : -2147483648 ≤ n) (h2 : n ≤ 2147483647) :
    parseOr0 (intToStr n) = n := by
  unfold parseOr0
  rw [parseI32_intToStr n h1 h2]
  rfl

/-- The full fixed-field round trip for an integer field: writing
`to_string`, reading 10 bytes back, trimming, and re-parsing recovers the
value, provided its decimal form fits in 10 bytes. -/
theorem intFieldRT (n : Int) (h1 : -999999999 ≤ n) (h2 : n ≤ 2147483647) :
    trimEnd (utf8Lossy (writeFixed (intToStr n))) = intToStr n ∧
      parseOr0 (trimEnd (utf8Lossy (writeFixed (intToStr n)))) = n := by
  have h3 : trimEnd (utf8Lossy (writeFixed (intToStr n))) = intToStr n := by
    apply fieldRT
    · exact intToStr_valid n
    · rw [utf8Len_intToStr]
      exact intToStr_length_le n h1 h2
    · exact trimEnd_intToStr n
  exact ⟨h3, by rw [h3]; exact parseOr0_intToStr n (by omega) h2⟩


/-! ### The header field: flag and version -/

theorem ValidStr_append (a b : RStr) (ha : ValidStr a) (hb : ValidStr b) :
    ValidStr (a ++ b) := by
  intro c hc
  rcases List.mem_append.mp hc with h | h
  · exact ha c h
  · exact hb c h

theorem boolStr_no_space (b : Bool) : ∀ c ∈ boolStr b, c ≠ 32 := by
  cases b <;> decide

theorem boolStr_valid (b : Bool) : ValidStr (boolStr b) := by
  cases b <;> decide

theorem trimEnd_boolStr (b : Bool) : trimEnd (boolStr b) = boolStr b := by
  cases b <;> rfl

theorem flag_parse (b : Bool) : (parseBool (asciiLower (boolStr b))).getD false = b := by
  cases b <;> rfl

/-- Round trip of the header field: writing `"True"/"False" ++ " " ++
version` through the fixed field and reading it back recovers the flag and
the version, provided the version is valid, has no trailing whitespace and
the combined header fits in 10 bytes. -/
theorem headerRT (b : Bool) (ver : RStr) (hv : ValidStr ver) (ht : trimEnd ver = ver)
    (hlen : utf8Len (boolStr b ++ 32 :: ver) ≤ 10) :
    (parseBool (asciiLower (splitn2 (trimEnd (utf8Lossy (writeFixed (boolStr b ++ 32 :: ver))))).1)).getD false = b ∧
      (splitn2 (trimEnd (utf8Lossy (writeFixed (boolStr b ++ 32 :: ver))))).2.getD [] = ver := by
  have hvhdr : ValidStr (boolStr b ++ 32 :: ver) := by
    apply ValidStr_append _ _ (boolStr_valid b)
    intro c hc
    rcases List.mem_cons.mp hc with h | h
    · exact Or.inl (by omega)
    · exact hv c h
  have hlossy : utf8Lossy (writeFixed (boolStr b ++ 32 :: ver)) =
      (boolStr b ++ 32 :: ver) ++ List.replicate (10 - utf8Len (boolStr b ++ 32 :: ver)) 32 := by
    rw [writeFixed_of_le _ hlen, utf8Lossy_encode _ hvhdr, utf8Lossy_replicate_space]
  rw [hlossy, trimEnd_append_replicate_space]
  cases hver : ver with
  | nil =>
    have h1 : trimEnd (boolStr b ++ 32 :: ([] : RStr)) = boolStr b := by
      have : boolStr b ++ 32 :: ([] : RStr) = boolStr b ++ [32] := rfl
      rw [this, trimEnd_append_space, trimEnd_boolStr]
    rw [h1, splitn2_no_space (boolStr b) (boolStr_no_space b)]
    exact ⟨flag_parse b, rfl⟩
  | cons x xs =>
    have hne : ver ≠ [] := by rw [hver]; simp
    rw [← hver]
    have h1 : trimEnd (boolStr b ++ 32 :: ver) = boolStr b ++ 32 :: ver := by
      have hsplit : boolStr b ++ 32 :: ver = (boolStr b ++ [32]) ++ ver := by simp
      rw [hsplit, trimEnd_append_not_ws _ ver ht hne, ← hsplit]
    rw [h1, splitn2_append (boolStr b) ver (boolStr_no_space b)]
    exact ⟨flag_parse b, rfl⟩


/-! ### Structure of the decoder: field offsets -/

theorem readFixed10_eq (s : List Nat) :
    readFixed10 s = if 10 ≤ s.length then some (fieldAt s 0, s.drop 10) else none := rfl

theorem fieldAt_drop (s : List Nat) (a i : Nat) :
    fieldAt (s.drop (10 * a)) i = fieldAt s (a + i) := by
  unfold fieldAt
  rw [List.drop_drop]
  have h : 10 * a + 10 * i = 10 * (a + i) := by ring
  rw [h]

theorem readK_eq (k : Nat) : ∀ s : List Nat,
    readK k s = if 10 * k ≤ s.length then
      some ((List.range k).map (fun i => fieldAt s i), s.drop (10 * k)) else none := by
  induction k with
  | zero =>
    intro s
    rw [if_pos (by omega)]
    simp [readK]
  | succ k ih =>
    intro s
    show (readFixed10 s >>= fun p => readK k p.2 >>= fun q => some (p.1 :: q.1, q.2)) = _
    rw [readFixed10_eq]
    by_cases h : 10 ≤ s.length
    · rw [if_pos h]
      simp only [Option.bind_eq_bind, Option.some_bind]
      rw [ih (s.drop 10)]
      by_cases h2 : 10 * k ≤ (s.drop 10).length
      · rw [if_pos h2]
        simp only [Option.bind_eq_bind, Option.some_bind]
        rw [if_pos (by simp only [List.length_drop] at h2; omega)]
        congr 1
        rw [Prod.mk.injEq]
        constructor
        · rw [List.range_succ_eq_map]
          simp only [List.map_cons, List.map_map]
          congr 1
          apply List.map_congr_left
          intro i _
          show fieldAt (s.drop (10 * 1)) i = fieldAt s (Nat.succ i)
          rw [fieldAt_drop]
          congr 1
          omega
        · rw [List.drop_drop]
          congr 1
          ring
      · rw [if_neg h2]
        simp only [Option.bind_eq_bind, Option.none_bind]
        rw [if_neg (by simp only [List.length_drop] at h2; omega)]
    · rw [if_neg h]
      simp only [Option.bind_eq_bind, Option.none_bind]
      rw [if_neg (by intro hh; omega)]

theorem readIntK_eq (k : Nat) (s : List Nat) :
    readIntK k s = if 10 * k ≤ s.length then
      some ((List.range k).map (fun i => parseOr0 (fieldAt s i)), s.drop (10 * k)) else none := by
  unfold readIntK
  rw [readK_eq]
  by_cases h : 10 * k ≤ s.length
  · rw [if_pos h, if_pos h]
    simp [List.map_map]
  · rw [if_neg h, if_neg h]
    rfl

theorem readChannels_eq (k : Nat) : ∀ s : List Nat,
    readChannels k s = if 30 * k ≤ s.length then
      some (((List.range k).map (fun i => parseOr0 (fieldAt s (3 * i))),
             (List.range k).map (fun i => parseOr0 (fieldAt s (3 * i + 1))),
             (List.range k).map (fun i => parseOr0 (fieldAt s (3 * i + 2)))),
            s.drop (30 * k)) else none := by
  induction k with
  | zero =>
    intro s
    rw [if_pos (by omega)]
    simp [readChannels]
  | succ k ih =>
    intro s
    show (readFixed10 s >>= fun a =>
      readFixed10 a.2 >>= fun b =>
      readFixed10 b.2 >>= fun c =>
      readChannels k c.2 >>= fun r =>
      some ((parseOr0 a.1 :: r.1.1, parseOr0 b.1 :: r.1.2.1, parseOr0 c.1 :: r.1.2.2), r.2)) = _
    rw [readFixed10_eq]
    by_cases h1 : 10 ≤ s.length
    case neg =>
      rw [if_neg h1]
      simp only [Option.bind_eq_bind, Option.none_bind]
      rw [if_neg (by intro hh; omega)]
    rw [if_pos h1]
    simp only [Option.bind_eq_bind, Option.some_bind]
    rw [readFixed10_eq]
    by_cases h2 : 10 ≤ (s.drop 10).length
    case neg =>
      rw [if_neg h2]
      simp only [Option.bind_eq_bind, Option.none_bind]
      rw [if_neg (by simp only [List.length_drop] at h2; omega)]
    rw [if_pos h2]
    simp only [Option.bind_eq_bind, Option.some_bind]
    rw [readFixed10_eq]
    by_cases h3 : 10 ≤ ((s.drop 10).drop 10).length
    case neg =>
      rw [if_neg h3]
      simp only [Option.bind_eq_bind, Option.none_bind]
      rw [if_neg (by simp only [List.length_drop] at h3; omega)]
    rw [if_pos h3]
    simp only [Option.bind_eq_bind, Option.some_bind]
    rw [ih]
    by_cases h4 : 30 * k ≤ (((s.drop 10).drop 10).drop 10).length
    case neg =>
      rw [if_neg h4]
      simp only [Option.bind_eq_bind, Option.none_bind]
      rw [if_neg (by simp only [List.length_drop] at h4; omega)]
    rw [if_pos h4]
    simp only [Option.bind_eq_bind, Option.some_bind]
    rw [if_pos (by simp only [List.length_drop] at h3 h4; omega)]
    have hdd : ((s.drop 10).drop 10).drop 10 = s.drop (10 * 3) := by
      rw [List.drop_drop, List.drop_drop]
    have hb0 : fieldAt (s.drop 10) 0 = fieldAt s 1 := by
      have h := fieldAt_drop s 1 0
      simpa using h
    have hc0 : fieldAt ((s.drop 10).drop 10) 0 = fieldAt s 2 := by
      have hd2 : (s.drop 10).drop 10 = s.drop (10 * 2) := by rw [List.drop_drop]
      rw [hd2]
      have h := fieldAt_drop s 2 0
      simpa using h
    have hmap0 : (List.range k).map
          (fun i => parseOr0 (fieldAt (((s.drop 10).drop 10).drop 10) (3 * i))) =
        (List.range k).map ((fun i => parseOr0 (fieldAt s (3 * i))) ∘ Nat.succ) := by
      apply List.map_congr_left
      intro i _
      show parseOr0 (fieldAt (((s.drop 10).drop 10).drop 10) (3 * i)) =
        parseOr0 (fieldAt s (3 * Nat.succ i))
      rw [hdd, fieldAt_drop]
      congr 2
      omega
    have hmap1 : (List.range k).map
          (fun i => parseOr0 (fieldAt (((s.drop 10).drop 10).drop 10) (3 * i + 1))) =
        (List.range k).map ((fun i => parseOr0 (fieldAt s (3 * i + 1))) ∘ Nat.succ) := by
      apply List.map_congr_left
      intro i _
      show parseOr0 (fieldAt (((s.drop 10).drop 10).drop 10) (3 * i + 1)) =
        parseOr0 (fieldAt s (3 * Nat.succ i + 1))
      rw [hdd, fieldAt_drop]
      congr 2
      omega
    have hmap2 : (List.range k).map
          (fun i => parseOr0 (fieldAt (((s.drop 10).drop 10).drop 10) (3 * i + 2))) =
        (List.range k).map ((fun i => parseOr0 (fieldAt s (3 * i + 2))) ∘ Nat.succ) := by
      apply List.map_congr_left
      intro i _
      show parseOr0 (fieldAt (((s.drop 10).drop 10).drop 10) (3 * i + 2)) =
        parseOr0 (fieldAt s (3 * Nat.succ i + 2))
      rw [hdd, fieldAt_drop]
      congr 2
      omega
    congr 1
    rw [Prod.mk.injEq, Prod.mk.injEq, Prod.mk.injEq]
    refine ⟨⟨?_, ?_, ?_⟩, ?_⟩
    · rw [List.range_succ_eq_map, List.map_cons, List.map_map, hmap0]
    · rw [List.range_succ_eq_map, List.map_cons, List.map_map, hb0, hmap1]
    · rw [List.range_succ_eq_map, List.map_cons, List.map_map, hc0, hmap2]
    · rw [hdd, List.drop_drop]
      congr 1
      ring

theorem getD_drop (s : List Nat) (a n : Nat) :
    (s.drop a).getD n 0 = s.getD (a + n) 0 := by
  rw [List.getD_eq_getElem?_getD, List.getD_eq_getElem?_getD, List.getElem?_drop]

theorem obind_if {q : Type} {b : Type} (c : Prop) [Decidable c] (x : q) (f : q → Option b) :
    Option.bind (if c then some x else none) f = if c then f x else none := by
  split <;> rfl

theorem parse_top_eq (s : List Nat) :
    parse_pcf_file s =
      if 10 ≤ s.length then pcfStep1 (fieldAt s 0) (s.drop 10) else none := by
  unfold parse_pcf_file
  rw [readFixed10_eq, obind_if]

theorem pcfStep1_eq (hdr : RStr) (s : List Nat) :
    pcfStep1 hdr s =
      if 10 ≤ s.length then pcfStep2 hdr (fieldAt s 0) (s.drop 10) else none := by
  unfold pcfStep1
  rw [readFixed10_eq, obind_if]

theorem pcfStep2_eq (hdr comboS : RStr) (s : List Nat) :
    pcfStep2 hdr comboS s =
      if 10 * 8 ≤ s.length then
        pcfStep3 hdr ((List.range 8).map (fun i => parseOr0 (fieldAt s i))) comboS
          (s.drop (10 * 8))
      else none := by
  unfold pcfStep2
  rw [readIntK_eq, obind_if]

theorem pcfStep3_eq (hdr : RStr) (pclk : List Int) (comboS : RStr) (s : List Nat) :
    pcfStep3 hdr pclk comboS s =
      if 10 ≤ s.length then pcfStep4 hdr pclk comboS (fieldAt s 0) (s.drop 10) else none := by
  unfold pcfStep3
  rw [readFixed10_eq, obind_if]

theorem pcfStep4_eq (hdr : RStr) (pclk : List Int) (comboS v8 : RStr) (s : List Nat) :
    pcfStep4 hdr pclk comboS v8 s =
      if 10 * 8 ≤ s.length then
        pcfStep5 hdr pclk comboS v8 ((List.range 8).map (fun i => fieldAt s i))
          (s.drop (10 * 8))
      else none := by
  unfold pcfStep4
  rw [readK_eq, obind_if]

theorem pcfStep5_eq (hdr : RStr) (pclk : List Int) (comboS v8 : RStr) (v07 : List RStr)
    (s : List Nat) :
    pcfStep5 hdr pclk comboS v8 v07 s =
      if 10 ≤ s.length then
        pcfStep6 hdr pclk comboS v8 v07 (fieldAt s 0) (s.drop 10)
      else none := by
  unfold pcfStep5
  rw [readFixed10_eq, obind_if]

theorem pcfStep6_eq (hdr : RStr) (pclk : List Int) (comboS v8 : RStr) (v07 : List RStr)
    (c8 : RStr) (s : List Nat) :
    pcfStep6 hdr pclk comboS v8 v07 c8 s =
      if 10 * 8 ≤ s.length then
        pcfStep7 hdr pclk comboS v8 v07 c8 ((List.range 8).map (fun i => fieldAt s i))
          (s.drop (10 * 8))
      else none := by
  unfold pcfStep6
  rw [readK_eq, obind_if]

theorem pcfStep7_eq (hdr : RStr) (pclk : List Int) (comboS v8 : RStr) (v07 : List RStr)
    (c8 : RStr) (c07 : List RStr) (s : List Nat) :
    pcfStep7 hdr pclk comboS v8 v07 c8 c07 s =
      if 10 ≤ s.length then
        pcfStep8 hdr pclk comboS v8 v07 c8 c07 (fieldAt s 0) (s.drop 10)
      else none := by
  unfold pcfStep7
  rw [readFixed10_eq, obind_if]

theorem pcfStep8_eq (hdr : RStr) (pclk : List Int) (comboS v8 : RStr) (v07 : List RStr)
    (c8 : RStr) (c07 : List RStr) (p8 : RStr) (s : List Nat) :
    pcfStep8 hdr pclk comboS v8 v07 c8 c07 p8 s =
      if 10 * 8 ≤ s.length then
        pcfStep9 hdr pclk comboS v8 v07 c8 c07 p8 ((List.range 8).map (fun i => fieldAt s i))
          (s.drop (10 * 8))
      else none := by
  unfold pcfStep8
  rw [readK_eq, obind_if]

theorem pcfStep9_eq (hdr : RStr) (pclk : List Int) (comboS v8 : RStr) (v07 : List RStr)
    (c8 : RStr) (c07 : List RStr) (p8 : RStr) (p07 : List RStr) (s : List Nat) :
    pcfStep9 hdr pclk comboS v8 v07 c8 c07 p8 p07 s =
      if 10 * 64 ≤ s.length then
        pcfStep10 hdr pclk comboS v8 v07 c8 c07 p8 p07
          ((List.range 64).map (fun i => fieldAt s i)) (s.drop (10 * 64))
      else none := by
  unfold pcfStep9
  rw [readK_eq, obind_if]

theorem pcfStep10_eq (hdr : RStr) (pclk : List Int) (comboS v8 : RStr) (v07 : List RStr)
    (c8 : RStr) (c07 : List RStr) (p8 : RStr) (p07 : List RStr) (clk : List RStr)
    (s : List Nat) :
    pcfStep10 hdr pclk comboS v8 v07 c8 c07 p8 p07 clk s =
      if 30 * 8 ≤ s.length then
        pcfStep11 hdr pclk comboS v8 v07 c8 c07 p8 p07 clk
          ((List.range 8).map (fun i => parseOr0 (fieldAt s (3 * i))),
           (List.range 8).map (fun i => parseOr0 (fieldAt s (3 * i + 1))),
           (List.range 8).map (fun i => parseOr0 (fieldAt s (3 * i + 2))))
          (s.drop (30 * 8))
      else none := by
  unfold pcfStep10
  rw [readChannels_eq, obind_if]

theorem pcfStep11_eq (hdr : RStr) (pclk : List Int) (comboS v8 : RStr) (v07 : List RStr)
    (c8 : RStr) (c07 : List RStr) (p8 : RStr) (p07 : List RStr) (clk : List RStr)
    (chans : List Int × List Int × List Int) (s : List Nat) :
    pcfStep11 hdr pclk comboS v8 v07 c8 c07 p8 p07 clk chans s =
      if 10 ≤ s.length then
        pcfStep12 hdr pclk comboS v8 v07 c8 c07 p8 p07 clk chans (fieldAt s 0) (s.drop 10)
      else none := by
  unfold pcfStep11
  rw [readFixed10_eq, obind_if]

theorem pcfStep12_eq (hdr : RStr) (pclk : List Int) (comboS v8 : RStr) (v07 : List RStr)
    (c8 : RStr) (c07 : List RStr) (p8 : RStr) (p07 : List RStr) (clk : List RStr)
    (chans : List Int × List Int × List Int) (pflS : RStr) (s : List Nat) :
    pcfStep12 hdr pclk comboS v8 v07 c8 c07 p8 p07 clk chans pflS s =
      if 18 * parseColsFn (parseOr0 pflS) ≤ s.length then
        some { compiled_flag := (parseBool (asciiLower (splitn2 hdr).1)).getD false
               version := (splitn2 hdr).2.getD []
               source_combo_index := parseOr0 comboS
               pclk_source_indices := pclk
               vtime_reqd := v07 ++ [v8]
               cycle_time := c07 ++ [c8]
               pulse_time := p07 ++ [p8]
               clk_sources := [] :: clk
               start_addrs := chans.1
               end_addrs := chans.2.1
               loop_counts := chans.2.2
               pattern_file_length := parseOr0 pflS
               pattern_data := (List.range 18).map (fun bit =>
                 (List.range (parseColsFn (parseOr0 pflS))).map
                   (fun col => s.getD (18 * col + bit) 0)) }
      else none := by
  unfold pcfStep12 readMatrix
  rw [obind_if]

/-- Master characterization of the decoder: `parse_pcf_file` succeeds
exactly when the stream holds the 1260 header bytes plus the full matrix
(whose size the stream itself declares at byte 1250), and then every field
of the result is read from its fixed byte offset. -/
theorem parse_pcf_file_eq (s : List Nat) :
    parse_pcf_file s =
      if 1260 + 18 * sCols s ≤ s.length then some (decodeTotal s) else none := by
  have f1 : ∀ i, fieldAt (s.drop 10) i = fieldAt s (1 + i) := fun i => by
    rw [show (10 : Nat) = 10 * 1 from rfl, fieldAt_drop]
  have f2 : ∀ i, fieldAt (s.drop 20) i = fieldAt s (2 + i) := fun i => by
    rw [show (20 : Nat) = 10 * 2 from rfl, fieldAt_drop]
  have f10 : ∀ i, fieldAt (s.drop 100) i = fieldAt s (10 + i) := fun i => by
    rw [show (100 : Nat) = 10 * 10 from rfl, fieldAt_drop]
  have f11 : ∀ i, fieldAt (s.drop 110) i = fieldAt s (11 + i) := fun i => by
    rw [show (110 : Nat) = 10 * 11 from rfl, fieldAt_drop]
  have f19 : ∀ i, fieldAt (s.drop 190) i = fieldAt s (19 + i) := fun i => by
    rw [show (190 : Nat) = 10 * 19 from rfl, fieldAt_drop]
  have f20 : ∀ i, fieldAt (s.drop 200) i = fieldAt s (20 + i) := fun i => by
    rw [show (200 : Nat) = 10 * 20 from rfl, fieldAt_drop]
  have f28 : ∀ i, fieldAt (s.drop 280) i = fieldAt s (28 + i) := fun i => by
    rw [show (280 : Nat) = 10 * 28 from rfl, fieldAt_drop]
  have f29 : ∀ i, fieldAt (s.drop 290) i = fieldAt s (29 + i) := fun i => by
    rw [show (290 : Nat) = 10 * 29 from rfl, fieldAt_drop]
  have f37 : ∀ i, fieldAt (s.drop 370) i = fieldAt s (37 + i) := fun i => by
    rw [show (370 : Nat) = 10 * 37 from rfl, fieldAt_drop]
  have f101 : ∀ i, fieldAt (s.drop 1010) i = fieldAt s (101 + i) := fun i => by
    rw [show (1010 : Nat) = 10 * 101 from rfl, fieldAt_drop]
  have f125 : ∀ i, fieldAt (s.drop 1250) i = fieldAt s (125 + i) := fun i => by
    rw [show (1250 : Nat) = 10 * 125 from rfl, fieldAt_drop]
  have d2 : (s.drop 10).drop 10 = s.drop 20 := by rw [List.drop_drop]
  have d3 : (s.drop 20).drop (10 * 8) = s.drop 100 := by rw [List.drop_drop]
  have d4 : (s.drop 100).drop 10 = s.drop 110 := by rw [List.drop_drop]
  have d5 : (s.drop 110).drop (10 * 8) = s.drop 190 := by rw [List.drop_drop]
  have d6 : (s.drop 190).drop 10 = s.drop 200 := by rw [List.drop_drop]
  have d7 : (s.drop 200).drop (10 * 8) = s.drop 280 := by rw [List.drop_drop]
  have d8 : (s.drop 280).drop 10 = s.drop 290 := by rw [List.drop_drop]
  have d9 : (s.drop 290).drop (10 * 8) = s.drop 370 := by rw [List.drop_drop]
  have d10 : (s.drop 370).drop (10 * 64) = s.drop 1010 := by rw [List.drop_drop]
  have d11 : (s.drop 1010).drop (30 * 8) = s.drop 1250 := by rw [List.drop_drop]
  have d12 : (s.drop 1250).drop 10 = s.drop 1260 := by rw [List.drop_drop]
  have hsc : parseColsFn (parseOr0 (fieldAt s (125 + 0))) = sCols s := by
    unfold sCols
    norm_num
  rw [parse_top_eq]
  split
  case isFalse h0 => rw [if_neg (by intro hh; omega)]
  case isTrue h0 =>
  rw [pcfStep1_eq]
  split
  case isFalse h1 => rw [if_neg (by simp only [List.length_drop] at h1; omega)]
  case isTrue h1 =>
  rw [d2, pcfStep2_eq]
  split
  case isFalse h2 => rw [if_neg (by simp only [List.length_drop] at h2; omega)]
  case isTrue h2 =>
  rw [d3, pcfStep3_eq]
  split
  case isFalse h3 => rw [if_neg (by simp only [List.length_drop] at h3; omega)]
  case isTrue h3 =>
  rw [d4, pcfStep4_eq]
  split
  case isFalse h4 => rw [if_neg (by simp only [List.length_drop] at h4; omega)]
  case isTrue h4 =>
  rw [d5, pcfStep5_eq]
  split
  case isFalse h5 => rw [if_neg (by simp only [List.length_drop] at h5; omega)]
  case isTrue h5 =>
  rw [d6, pcfStep6_eq]
  split
  case isFalse h6 => rw [if_neg (by simp only [List.length_drop] at h6; omega)]
  case isTrue h6 =>
  rw [d7, pcfStep7_eq]
  split
  case isFalse h7 => rw [if_neg (by simp only [List.length_drop] at h7; omega)]
  case isTrue h7 =>
  rw [d8, pcfStep8_eq]
  split
  case isFalse h8 => rw [if_neg (by simp only [List.length_drop] at h8; omega)]
  case isTrue h8 =>
  rw [d9, pcfStep9_eq]
  split
  case isFalse h9 => rw [if_neg (by simp only [List.length_drop] at h9; omega)]
  case isTrue h9 =>
  rw [d10, pcfStep10_eq]
  split
  case isFalse h10 => rw [if_neg (by simp only [List.length_drop] at h10; omega)]
  case isTrue h10 =>
  rw [d11, pcfStep11_eq]
  split
  case isFalse h11 => rw [if_neg (by simp only [List.length_drop] at h11; omega)]
  case isTrue h11 =>
  rw [d12, f125 0, pcfStep12_eq]
  split
  case isFalse h12 =>
    rw [if_neg (by
      rw [hsc] at h12
      simp only [List.length_drop] at h11 h12
      omega)]
  case isTrue h12 =>
  rw [if_pos (by
    rw [hsc] at h12
    simp only [List.length_drop] at h11 h12
    omega)]
  unfold decodeTotal
  rw [hsc]
  simp only [f1, f2, f10, f11, f19, f20, f28, f29, f37, f101, getD_drop]


/-! ### Structure of the encoder: field offsets -/

theorem headerFields_eq_map (r : PatternFileData) :
    headerFields r = (List.range 126).map (hfField r) := rfl

theorem length_flatMap_writeFixed (fs : List RStr) :
    (fs.flatMap writeFixed).length = 10 * fs.length := by
  induction fs with
  | nil => rfl
  | cons f fs ih =>
    rw [List.flatMap_cons, List.length_append, ih, writeFixed_length, List.length_cons]
    ring

theorem headerBytes_length (r : PatternFileData) : (headerBytes r).length = 1260 := by
  unfold headerBytes
  rw [length_flatMap_writeFixed, headerFields_eq_map, List.length_map, List.length_range]

theorem flatMapWF_drop : ∀ (i : Nat) (fs : List RStr) (rest : List Nat), i ≤ fs.length →
    (fs.flatMap writeFixed ++ rest).drop (10 * i) = (fs.drop i).flatMap writeFixed ++ rest := by
  intro i
  induction i with
  | zero => intro fs rest _; rfl
  | succ j ih =>
    intro fs rest h
    match fs with
    | [] => simp at h
    | f :: fs2 =>
      rw [List.flatMap_cons, List.append_assoc]
      have hlen : (10 : Nat) * (j + 1) = (writeFixed f).length + 10 * j := by
        rw [writeFixed_length]
        ring
      rw [hlen, List.drop_append]
      rw [List.length_cons] at h
      exact ih fs2 rest (by omega)

theorem map_range_getD {q : Type} (f : Nat → q) (n i : Nat) (d : q) (h : i < n) :
    ((List.range n).map f).getD i d = f i := by
  rw [List.getD_eq_getElem?_getD, List.getElem?_map, List.getElem?_range h]
  rfl

/-- The `i`-th 10-byte field of the encoder's output region, read back as the
decoder reads it: the lossy decode and trim of the written fixed field. -/
theorem fieldAt_encode (r : PatternFileData) (rest : List Nat) (i : Nat) (h : i < 126) :
    fieldAt (headerBytes r ++ rest) i = trimEnd (utf8Lossy (writeFixed (hfField r i))) := by
  unfold fieldAt headerBytes
  rw [flatMapWF_drop i (headerFields r) rest (by
    rw [headerFields_eq_map, List.length_map, List.length_range]
    omega)]
  have hdrop : (headerFields r).drop i = hfField r i :: ((headerFields r).drop (i + 1)) := by
    rw [headerFields_eq_map]
    rw [List.drop_eq_getElem_cons (by rw [List.length_map, List.length_range]; exact h)]
    congr 1
    rw [List.getElem_map, List.getElem_range]
  rw [hdrop, List.flatMap_cons, List.append_assoc]
  have htake : (writeFixed (hfField r i) ++
      (((headerFields r).drop (i + 1)).flatMap writeFixed ++ rest)).take 10 =
      writeFixed (hfField r i) := by
    rw [List.take_append_of_le_length (by rw [writeFixed_length])]
    rw [List.take_of_length_le (by rw [writeFixed_length])]
  rw [htake]

theorem hfField_0 (r : PatternFileData) :
    hfField r 0 = boolStr r.compiled_flag ++ 32 :: r.version := rfl

theorem hfField_1 (r : PatternFileData) : hfField r 1 = intToStr r.source_combo_index := rfl

theorem hfField_pclk (r : PatternFileData) (i : Nat) (h : i < 8) :
    hfField r (2 + i) = intToStr (r.pclk_source_indices.getD i 0) := by
  unfold hfField
  rw [if_neg (by intro hh; omega), if_neg (by intro hh; omega), if_pos (by omega)]
  have hidx : 2 + i - 2 = i := by omega
  rw [hidx]

theorem hfField_v8 (r : PatternFileData) : hfField r 10 = r.vtime_reqd.getD 8 [] := rfl

theorem hfField_v07 (r : PatternFileData) (i : Nat) (h : i < 8) :
    hfField r (11 + i) = r.vtime_reqd.getD i [] := by
  unfold hfField
  rw [if_neg (by intro hh; omega), if_neg (by intro hh; omega), if_neg (by intro hh; omega), if_neg (by intro hh; omega),
    if_pos (by omega)]
  congr 1
  omega

theorem hfField_c8 (r : PatternFileData) : hfField r 19 = r.cycle_time.getD 8 [] := rfl

theorem hfField_c07 (r : PatternFileData) (i : Nat) (h : i < 8) :
    hfField r (20 + i) = r.cycle_time.getD i [] := by
  unfold hfField
  rw [if_neg (by intro hh; omega), if_neg (by intro hh; omega), if_neg (by intro hh; omega), if_neg (by intro hh; omega),
    if_neg (by intro hh; omega), if_neg (by intro hh; omega), if_pos (by omega)]
  congr 1
  omega

theorem hfField_p8 (r : PatternFileData) : hfField r 28 = r.pulse_time.getD 8 [] := rfl

theorem hfField_p07 (r : PatternFileData) (i : Nat) (h : i < 8) :
    hfField r (29 + i) = r.pulse_time.getD i [] := by
  unfold hfField
  rw [if_neg (by intro hh; omega), if_neg (by intro hh; omega), if_neg (by intro hh; omega), if_neg (by intro hh; omega),
    if_neg (by intro hh; omega), if_neg (by intro hh; omega), if_neg (by intro hh; omega), if_neg (by intro hh; omega),
    if_pos (by omega)]
  congr 1
  omega

theorem hfField_clk (r : PatternFileData) (i : Nat) (h : i < 64) :
    hfField r (37 + i) = r.clk_sources.getD (1 + i) [] := by
  unfold hfField
  rw [if_neg (by intro hh; omega), if_neg (by intro hh; omega), if_neg (by intro hh; omega), if_neg (by intro hh; omega),
    if_neg (by intro hh; omega), if_neg (by intro hh; omega), if_neg (by intro hh; omega), if_neg (by intro hh; omega),
    if_neg (by intro hh; omega), if_pos (by omega)]
  congr 1
  omega

theorem hfField_start (r : PatternFileData) (i : Nat) (h : i < 8) :
    hfField r (101 + 3 * i) = intToStr (r.start_addrs.getD i 0) := by
  unfold hfField
  rw [if_neg (by intro hh; omega), if_neg (by intro hh; omega), if_neg (by intro hh; omega), if_neg (by intro hh; omega),
    if_neg (by intro hh; omega), if_neg (by intro hh; omega), if_neg (by intro hh; omega), if_neg (by intro hh; omega),
    if_neg (by intro hh; omega), if_neg (by intro hh; omega), if_pos (by omega), if_pos (by omega)]
  have hidx : (101 + 3 * i - 101) / 3 = i := by omega
  rw [hidx]

theorem hfField_end (r : PatternFileData) (i : Nat) (h : i < 8) :
    hfField r (101 + (3 * i + 1)) = intToStr (r.end_addrs.getD i 0) := by
  unfold hfField
  rw [if_neg (by intro hh; omega), if_neg (by intro hh; omega), if_neg (by intro hh; omega), if_neg (by intro hh; omega),
    if_neg (by intro hh; omega), if_neg (by intro hh; omega), if_neg (by intro hh; omega), if_neg (by intro hh; omega),
    if_neg (by intro hh; omega), if_neg (by intro hh; omega), if_pos (by omega), if_neg (by intro hh; omega),
    if_pos (by omega)]
  have hidx : (101 + (3 * i + 1) - 101) / 3 = i := by omega
  rw [hidx]

theorem hfField_loop (r : PatternFileData) (i : Nat) (h : i < 8) :
    hfField r (101 + (3 * i + 2)) = intToStr (r.loop_counts.getD i 0) := by
  unfold hfField
  rw [if_neg (by intro hh; omega), if_neg (by intro hh; omega), if_neg (by intro hh; omega), if_neg (by intro hh; omega),
    if_neg (by intro hh; omega), if_neg (by intro hh; omega), if_neg (by intro hh; omega), if_neg (by intro hh; omega),
    if_neg (by intro hh; omega), if_neg (by intro hh; omega), if_pos (by omega), if_neg (by intro hh; omega),
    if_neg (by intro hh; omega)]
  have hidx : (101 + (3 * i + 2) - 101) / 3 = i := by omega
  rw [hidx]

theorem hfField_pfl (r : PatternFileData) :
    hfField r 125 = intToStr r.pattern_file_length := rfl

/-! ### The matrix block: length and column-major indexing -/

theorem flatMap_range_length (L : Nat) (f : Nat → List Nat) (hf : ∀ i, (f i).length = L) :
    ∀ n : Nat, ((List.range n).flatMap f).length = n * L := by
  intro n
  induction n with
  | zero => simp
  | succ m ih =>
    rw [List.range_succ, List.flatMap_append, List.length_append, ih]
    simp only [List.flatMap_cons, List.flatMap_nil, List.append_nil]
    rw [hf m]
    ring

theorem getD_append_left {l1 l2 : List Nat} {n : Nat} (h : n < l1.length) (d : Nat) :
    (l1 ++ l2).getD n d = l1.getD n d := by
  rw [List.getD_eq_getElem?_getD, List.getD_eq_getElem?_getD, List.getElem?_append]
  rw [if_pos h]

theorem getD_append_right {l1 l2 : List Nat} {n : Nat} (h : l1.length ≤ n) (d : Nat) :
    (l1 ++ l2).getD n d = l2.getD (n - l1.length) d := by
  rw [List.getD_eq_getElem?_getD, List.getD_eq_getElem?_getD, List.getElem?_append]
  rw [if_neg (by intro hh; omega)]

theorem flatMap_range_getD (L : Nat) (f : Nat → List Nat) (hf : ∀ i, (f i).length = L) :
    ∀ (n q j : Nat), q < n → j < L →
    ((List.range n).flatMap f).getD (L * q + j) 0 = (f q).getD j 0 := by
  intro n
  induction n with
  | zero => omega
  | succ m ih =>
    intro q j hq hj
    rw [List.range_succ, List.flatMap_append]
    simp only [List.flatMap_cons, List.flatMap_nil, List.append_nil]
    by_cases hqm : q < m
    · rw [getD_append_left (by
        rw [flatMap_range_length L f hf m, Nat.mul_comm m L]
        have : L * q + L ≤ L * m := by
          have hq1 : q + 1 ≤ m := hqm
          calc L * q + L = L * (q + 1) := by ring
          _ ≤ L * m := Nat.mul_le_mul_left L hq1
        omega)]
      exact ih q j hqm hj
    · have hq2 : q = m := by omega
      subst hq2
      rw [getD_append_right (by
        rw [flatMap_range_length L f hf q]
        calc q * L = L * q := by ring
        _ ≤ L * q + j := by omega)]
      congr 1
      rw [flatMap_range_length L f hf q]
      ring_nf
      omega

theorem encodeMatrix_some (rows : List (List Nat)) (cols : Nat)
    (h18 : 18 ≤ rows.length) (hrow : ∀ bit, bit < 18 → cols ≤ (rows.getD bit []).length) :
    encodeMatrix rows cols = some ((List.range cols).flatMap (fun col =>
      (List.range 18).map (fun bit => (rows.getD bit []).getD col 0))) := by
  unfold encodeMatrix
  by_cases hc : cols = 0
  · subst hc
    rw [if_pos rfl]
    rfl
  · rw [if_neg hc, if_pos ⟨h18, fun bit hb => hrow bit (List.mem_range.mp hb)⟩]


/-! ### Encode output and the conditions for a lossless round trip -/

theorem write_pcf_file_some (r : PatternFileData) (h65 : r.clk_sources.length = 65)
    (h18 : 18 ≤ r.pattern_data.length)
    (hrow : ∀ bit, bit < 18 →
      writeColsFn r.pattern_file_length ≤ (r.pattern_data.getD bit []).length) :
    write_pcf_file r = some (headerBytes r ++ matBytes r) := by
  unfold write_pcf_file writeAfterClkAssert
  rw [if_pos h65, encodeMatrix_some _ _ h18 hrow]
  rfl

theorem matBytes_length (r : PatternFileData) :
    (matBytes r).length = writeColsFn r.pattern_file_length * 18 := by
  unfold matBytes
  exact flatMap_range_length 18 _ (fun i => by rw [List.length_map, List.length_range]) _

theorem matBytes_getD (r : PatternFileData) (col bit : Nat)
    (hc : col < writeColsFn r.pattern_file_length) (hb : bit < 18) :
    (matBytes r).getD (18 * col + bit) 0 = (r.pattern_data.getD bit []).getD col 0 := by
  unfold matBytes
  rw [flatMap_range_getD 18 _ (fun i => by rw [List.length_map, List.length_range]) _ col bit hc hb]
  rw [map_range_getD _ 18 bit 0 hb]

/-- With `pattern_file_length` in `[-20, 2147483627]`, the unguarded
`(pattern_file_length + 20) as usize` is just `pattern_file_length + 20`. -/
theorem writeColsFn_eq (pfl : Int) (h1 : -20 ≤ pfl) (h2 : pfl ≤ 2147483627) :
    writeColsFn pfl = (pfl + 20).toNat := by
  unfold writeColsFn i32ToUsize wrap32
  have hw : (pfl + 20 + 2147483648) % 4294967296 - 2147483648 = pfl + 20 := by omega
  rw [hw]
  omega

theorem parseColsFn_eq (pfl : Int) (h1 : -20 ≤ pfl) (h2 : pfl ≤ 2147483627) :
    parseColsFn pfl = (pfl + 20).toNat :=
  writeColsFn_eq pfl h1 h2

theorem getD_mem' {q : Type} (l : List q) (n : Nat) (d : q) (h : n < l.length) :
    l.getD n d ∈ l := by
  rw [List.getD_eq_getElem l d h]
  exact List.getElem_mem h

set_option maxHeartbeats 2000000 in
/-- Full lossless round trip: a `RoundTripSafe` record encodes successfully
and decodes back to itself. -/
theorem parse_write_roundTrip (r : PatternFileData) (h : RoundTripSafe r) :
    write_pcf_file r = some (headerBytes r ++ matBytes r) ∧
      parse_pcf_file (headerBytes r ++ matBytes r) = some r := by
  obtain ⟨hpclk, hvt, hct, hpt, hclk, hsa, hea, hlc, hver, hvert, hhdr, hgvt, hgct, hgpt,
    hgclk, hclk0, hcombo, hgpclk, hgsa, hgea, hglc, hpfl1, hpfl2, h18, hrows⟩ := h
  have hwc : writeColsFn r.pattern_file_length = (r.pattern_file_length + 20).toNat :=
    writeColsFn_eq _ hpfl1 hpfl2
  have hrow' : ∀ bit, bit < 18 →
      writeColsFn r.pattern_file_length ≤ (r.pattern_data.getD bit []).length := by
    intro bit hb
    rw [hwc, hrows _ (getD_mem' _ bit [] (by omega))]
  have hw := write_pcf_file_some r hclk (by omega) hrow'
  refine ⟨hw, ?_⟩
  have hlen : (headerBytes r ++ matBytes r).length =
      1260 + 18 * writeColsFn r.pattern_file_length := by
    rw [List.length_append, headerBytes_length, matBytes_length]
    ring
  have hf125 : fieldAt (headerBytes r ++ matBytes r) 125 = intToStr r.pattern_file_length := by
    rw [fieldAt_encode r _ 125 (by omega), hfField_pfl]
    exact (intFieldRT _ (by omega) (by omega)).1
  have hscols : sCols (headerBytes r ++ matBytes r) = writeColsFn r.pattern_file_length := by
    unfold sCols
    rw [hf125, parseOr0_intToStr _ (by omega) (by omega)]
    rfl
  rw [parse_pcf_file_eq, if_pos (by rw [hscols, hlen])]
  -- field-by-field reconstruction
  have hf0 : fieldAt (headerBytes r ++ matBytes r) 0 =
      trimEnd (utf8Lossy (writeFixed (boolStr r.compiled_flag ++ 32 :: r.version))) := by
    rw [fieldAt_encode r _ 0 (by omega), hfField_0]
  have hh := headerRT r.compiled_flag r.version hver hvert hhdr
  have e1 : (parseBool (asciiLower (splitn2 (fieldAt (headerBytes r ++ matBytes r) 0)).1)).getD
      false = r.compiled_flag := by
    rw [hf0]
    exact hh.1
  have e2 : (splitn2 (fieldAt (headerBytes r ++ matBytes r) 0)).2.getD [] = r.version := by
    rw [hf0]
    exact hh.2
  have e3 : parseOr0 (fieldAt (headerBytes r ++ matBytes r) (1 + 0)) = r.source_combo_index := by
    rw [show (1 + 0 : Nat) = 1 from rfl, fieldAt_encode r _ 1 (by omega), hfField_1]
    exact (intFieldRT _ hcombo.1 hcombo.2).2
  have e4 : (List.range 8).map (fun i => parseOr0 (fieldAt (headerBytes r ++ matBytes r) (2 + i))) =
      r.pclk_source_indices := by
    apply List.ext_getElem (by rw [List.length_map, List.length_range, hpclk])
    intro j h1 h2
    rw [List.getElem_map, List.getElem_range]
    have hj : j < 8 := by
      rw [List.length_map, List.length_range] at h1
      exact h1
    have hg : GoodInt (r.pclk_source_indices.getD j 0) :=
      hgpclk _ (getD_mem' _ j 0 (by omega))
    rw [fieldAt_encode r _ (2 + j) (by omega), hfField_pclk r j hj]
    rw [(intFieldRT _ hg.1 hg.2).2]
    exact List.getD_eq_getElem _ 0 (by omega)
  have etext : ∀ (l : List RStr), l.length = 9 → (∀ v ∈ l, GoodStr v) →
      ∀ (base8 : Nat) (base07 : Nat),
      (∀ i, i < 8 → hfField r (base07 + i) = l.getD i []) →
      (hfField r (base8 + 0) = l.getD 8 []) →
      base07 + 7 < 126 → base8 < 126 →
      (List.range 8).map (fun i => fieldAt (headerBytes r ++ matBytes r) (base07 + i)) ++
        [fieldAt (headerBytes r ++ matBytes r) (base8 + 0)] = l := by
    intro l hl hgood base8 base07 hf07 hf8 hb7 hb8
    apply List.ext_getElem (by
      rw [List.length_append, List.length_map, List.length_range, hl]
      rfl)
    intro j h1 h2
    have hj : j < 9 := by
      rw [List.length_append, List.length_map, List.length_range] at h1
      simpa using h1
    by_cases hj8 : j < 8
    · rw [List.getElem_append_left (by
        rw [List.length_map, List.length_range]
        exact hj8)]
      rw [List.getElem_map, List.getElem_range]
      have hg : GoodStr (l.getD j []) := hgood _ (getD_mem' _ j [] (by omega))
      rw [fieldAt_encode r _ (base07 + j) (by omega), hf07 j hj8]
      rw [fieldRT _ hg.1 hg.2.1 hg.2.2]
      exact List.getD_eq_getElem _ [] (by omega)
    · have hj9 : j = 8 := by omega
      subst hj9
      rw [List.getElem_append_right (by
        rw [List.length_map, List.length_range])]
      have hidx : 8 - ((List.range 8).map
          (fun i => fieldAt (headerBytes r ++ matBytes r) (base07 + i))).length = 0 := by
        rw [List.length_map, List.length_range]
      simp only [hidx]
      show fieldAt (headerBytes r ++ matBytes r) (base8 + 0) = _
      have hg : GoodStr (l.getD 8 []) := hgood _ (getD_mem' _ 8 [] (by omega))
      rw [fieldAt_encode r _ (base8 + 0) (by omega), hf8]
      rw [fieldRT _ hg.1 hg.2.1 hg.2.2]
      exact List.getD_eq_getElem _ [] (by omega)
  have e5 := etext r.vtime_reqd hvt hgvt 10 11 (fun i hi => hfField_v07 r i hi)
    (by rw [show (10 + 0 : Nat) = 10 from rfl]; exact hfField_v8 r) (by omega) (by omega)
  have e6 := etext r.cycle_time hct hgct 19 20 (fun i hi => hfField_c07 r i hi)
    (by rw [show (19 + 0 : Nat) = 19 from rfl]; exact hfField_c8 r) (by omega) (by omega)
  have e7 := etext r.pulse_time hpt hgpt 28 29 (fun i hi => hfField_p07 r i hi)
    (by rw [show (28 + 0 : Nat) = 28 from rfl]; exact hfField_p8 r) (by omega) (by omega)
  have e8 : ([] : RStr) :: (List.range 64).map
      (fun i => fieldAt (headerBytes r ++ matBytes r) (37 + i)) = r.clk_sources := by
    apply List.ext_getElem (by
      rw [List.length_cons, List.length_map, List.length_range, hclk])
    intro j h1 h2
    have hj : j < 65 := by
      rw [List.length_cons, List.length_map, List.length_range] at h1
      omega
    cases j with
    | zero =>
      rw [List.getElem_cons_zero, ← List.getD_eq_getElem r.clk_sources [] (by omega)]
      exact hclk0.symm
    | succ i =>
      rw [List.getElem_cons_succ, List.getElem_map, List.getElem_range]
      have hg : GoodStr (r.clk_sources.getD (1 + i) []) :=
        hgclk _ (getD_mem' _ (1 + i) [] (by omega))
      rw [fieldAt_encode r _ (37 + i) (by omega), hfField_clk r i (by omega)]
      rw [fieldRT _ hg.1 hg.2.1 hg.2.2]
      rw [show 1 + i = i + 1 from by omega]
      exact List.getD_eq_getElem r.clk_sources [] (by omega)
  have echan : ∀ (l : List Int), l.length = 8 → (∀ n ∈ l, GoodInt n) →
      ∀ (off : Nat), off < 3 →
      (∀ i, i < 8 → hfField r (101 + (3 * i + off)) = intToStr (l.getD i 0)) →
      (List.range 8).map
        (fun i => parseOr0 (fieldAt (headerBytes r ++ matBytes r) (101 + (3 * i + off)))) = l := by
    intro l hl hgood off hoff hf
    apply List.ext_getElem (by rw [List.length_map, List.length_range, hl])
    intro j h1 h2
    have hj : j < 8 := by
      rw [List.length_map, List.length_range] at h1
      exact h1
    rw [List.getElem_map, List.getElem_range]
    have hg : GoodInt (l.getD j 0) := hgood _ (getD_mem' _ j 0 (by omega))
    rw [fieldAt_encode r _ (101 + (3 * j + off)) (by omega), hf j hj]
    rw [(intFieldRT _ hg.1 hg.2).2]
    exact List.getD_eq_getElem _ 0 (by omega)
  have e9 : (List.range 8).map
      (fun i => parseOr0 (fieldAt (headerBytes r ++ matBytes r) (101 + 3 * i))) =
      r.start_addrs := by
    have h := echan r.start_addrs hsa hgsa 0 (by omega)
      (fun i hi => by rw [show 3 * i + 0 = 3 * i from rfl]; exact hfField_start r i hi)
    rw [← h]
    apply List.map_congr_left
    intro i _
    rw [show 3 * i + 0 = 3 * i from rfl]
  have e10 := echan r.end_addrs hea hgea 1 (by omega) (fun i hi => hfField_end r i hi)
  have e11 := echan r.loop_counts hlc hglc 2 (by omega) (fun i hi => hfField_loop r i hi)
  have e12 : parseOr0 (fieldAt (headerBytes r ++ matBytes r) (125 + 0)) =
      r.pattern_file_length := by
    rw [show (125 + 0 : Nat) = 125 from rfl, hf125]
    exact parseOr0_intToStr _ (by omega) (by omega)
  have e13 : (List.range 18).map (fun bit =>
      (List.range (sCols (headerBytes r ++ matBytes r))).map
        (fun col => (headerBytes r ++ matBytes r).getD (1260 + (18 * col + bit)) 0)) =
      r.pattern_data := by
    rw [hscols]
    apply List.ext_getElem (by rw [List.length_map, List.length_range]; omega)
    intro bit h1 h2
    have hbit : bit < 18 := by
      rw [List.length_map, List.length_range] at h1
      exact h1
    rw [List.getElem_map, List.getElem_range]
    have hrlen : (r.pattern_data.getD bit []).length = (r.pattern_file_length + 20).toNat :=
      hrows _ (getD_mem' _ bit [] (by omega))
    apply List.ext_getElem (by
      rw [List.length_map, List.length_range, ← List.getD_eq_getElem r.pattern_data [] (by omega : bit < r.pattern_data.length)]
      rw [hrlen, hwc])
    intro col hc1 hc2
    have hcol : col < writeColsFn r.pattern_file_length := by
      rw [List.length_map, List.length_range] at hc1
      exact hc1
    rw [List.getElem_map, List.getElem_range]
    rw [getD_append_right (by rw [headerBytes_length]; omega) 0]
    rw [headerBytes_length]
    rw [show 1260 + (18 * col + bit) - 1260 = 18 * col + bit from by omega]
    rw [matBytes_getD r col bit hcol hbit]
    rw [List.getD_eq_getElem r.pattern_data [] (by omega : bit < r.pattern_data.length)]
    exact List.getD_eq_getElem _ 0 (by
      rw [← List.getD_eq_getElem r.pattern_data [] (by omega : bit < r.pattern_data.length),
        hrlen, ← hwc]
      exact hcol)
  have hdec : decodeTotal (headerBytes r ++ matBytes r) = r := by
    unfold decodeTotal
    rw [e1, e2, e3, e4, e5, e6, e7, e8, e9, e10, e11, e12, e13]
  rw [hdec]


/-! ### Inversion lemmas for the claim proofs -/

theorem parse_some_inv (s : List Nat) (r : PatternFileData)
    (h : parse_pcf_file s = some r) :
    1260 + 18 * sCols s ≤ s.length ∧ r = decodeTotal s := by
  rw [parse_pcf_file_eq] at h
  split at h
  case isTrue hc => exact ⟨hc, (Option.some.inj h).symm⟩
  case isFalse hc => cases h

theorem encodeMatrix_some_inv (rows : List (List Nat)) (cols : Nat) (mb : List Nat)
    (h : encodeMatrix rows cols = some mb) :
    mb = (List.range cols).flatMap (fun col =>
      (List.range 18).map (fun bit => (rows.getD bit []).getD col 0)) := by
  unfold encodeMatrix at h
  by_cases hc : cols = 0
  · subst hc
    rw [if_pos rfl] at h
    have := Option.some.inj h
    rw [← this]
    rfl
  · rw [if_neg hc] at h
    split at h
    · exact (Option.some.inj h).symm
    · cases h

theorem write_some_inv (r : PatternFileData) (bs : List Nat)
    (h : write_pcf_file r = some bs) :
    r.clk_sources.length = 65 ∧ bs = headerBytes r ++ matBytes r := by
  unfold write_pcf_file writeAfterClkAssert at h
  by_cases h65 : r.clk_sources.length = 65
  · rw [if_pos h65] at h
    refine ⟨h65, ?_⟩
    cases hm : encodeMatrix r.pattern_data (writeColsFn r.pattern_file_length) with
    | none =>
      rw [hm] at h
      cases h
    | some mb =>
      rw [hm] at h
      have hmb := encodeMatrix_some_inv _ _ _ hm
      have hbs : bs = headerBytes r ++ mb := (Option.some.inj h).symm
      rw [hbs, hmb]
      rfl
  · rw [if_neg h65] at h
    cases h

/-- The raw 10 bytes the encoder wrote for field `k`, recovered from the
output stream. -/
theorem block_encode (r : PatternFileData) (rest : List Nat) (k : Nat) (h : k < 126) :
    ((headerBytes r ++ rest).drop (10 * k)).take 10 = writeFixed (hfField r k) := by
  unfold headerBytes
  rw [flatMapWF_drop k (headerFields r) rest (by
    rw [headerFields_eq_map, List.length_map, List.length_range]
    omega)]
  have hdrop : (headerFields r).drop k = hfField r k :: ((headerFields r).drop (k + 1)) := by
    rw [headerFields_eq_map]
    rw [List.drop_eq_getElem_cons (by rw [List.length_map, List.length_range]; exact h)]
    congr 1
    rw [List.getElem_map, List.getElem_range]
  rw [hdrop, List.flatMap_cons, List.append_assoc]
  rw [List.take_append_of_le_length (by rw [writeFixed_length])]
  rw [List.take_of_length_le (by rw [writeFixed_length])]

theorem writeFixed_of_gt (v : RStr) (h : 10 ≤ utf8Len v) :
    writeFixed v = (utf8Encode v).take 10 := by
  unfold writeFixed
  unfold utf8Len at h
  rw [show 10 - (utf8Encode v).length = 0 from by omega]
  rw [List.replicate_zero, List.append_nil]

theorem utf8Encode_append (a b : RStr) :
    utf8Encode (a ++ b) = utf8Encode a ++ utf8Encode b := by
  unfold utf8Encode
  rw [List.flatMap_append]

theorem trimEnd_append_rest (w : RStr) :
    trimEnd w ++ (w.reverse.takeWhile isWs).reverse = w := by
  unfold trimEnd
  rw [← List.reverse_append, List.takeWhile_append_dropWhile, List.reverse_reverse]

/-- The encoder's 126 fields never mention `clk_sources[0]`: replacing it
leaves `headerFields` unchanged (for a nonempty `clk_sources`). -/
theorem headerFields_clk0_irrel (cf : Bool) (ver : RStr) (sci : Int) (pclk : List Int)
    (vt ct pt : List RStr) (cs : List RStr) (sa ea lc : List Int) (pfl : Int)
    (pd : List (List Nat)) (v : RStr) (h : cs ≠ []) :
    headerFields ⟨cf, ver, sci, pclk, vt, ct, pt, v :: cs.tail, sa, ea, lc, pfl, pd⟩
      = headerFields ⟨cf, ver, sci, pclk, vt, ct, pt, cs, sa, ea, lc, pfl, pd⟩ := by
  obtain ⟨a, t, hat⟩ : ∃ a t, cs = a :: t := by
    cases cs with
    | nil => exact absurd rfl h
    | cons a t => exact ⟨a, t, rfl⟩
  subst hat
  have hmapc : (List.range' 1 64).map (fun i => (v :: t).getD i [])
      = (List.range' 1 64).map (fun i => (a :: t).getD i []) := by
    refine List.map_congr_left ?_
    intro k hk
    have hk1 : 1 ≤ k := by
      have h2 := List.mem_range'_1.mp hk
      omega
    obtain ⟨j, hj⟩ : ∃ j, k = j + 1 := ⟨k - 1, by omega⟩
    rw [hj]
    rfl
  have h1 : headerFields ⟨cf, ver, sci, pclk, vt, ct, pt, v :: (a :: t).tail, sa, ea, lc,
      pfl, pd⟩
      = [boolStr cf ++ 32 :: ver, intToStr sci] ++
        (List.range 8).map (fun i => intToStr (pclk.getD i 0)) ++
        [vt.getD 8 []] ++ (List.range 8).map (fun i => vt.getD i []) ++
        [ct.getD 8 []] ++ (List.range 8).map (fun i => ct.getD i []) ++
        [pt.getD 8 []] ++ (List.range 8).map (fun i => pt.getD i []) ++
        (List.range' 1 64).map (fun i => (v :: t).getD i []) ++
        (List.range 8).flatMap (fun i =>
          [intToStr (sa.getD i 0), intToStr (ea.getD i 0), intToStr (lc.getD i 0)]) ++
        [intToStr pfl] := rfl
  have h2 : headerFields ⟨cf, ver, sci, pclk, vt, ct, pt, a :: t, sa, ea, lc, pfl, pd⟩
      = [boolStr cf ++ 32 :: ver, intToStr sci] ++
        (List.range 8).map (fun i => intToStr (pclk.getD i 0)) ++
        [vt.getD 8 []] ++ (List.range 8).map (fun i => vt.getD i []) ++
        [ct.getD 8 []] ++ (List.range 8).map (fun i => ct.getD i []) ++
        [pt.getD 8 []] ++ (List.range 8).map (fun i => pt.getD i []) ++
        (List.range' 1 64).map (fun i => (a :: t).getD i []) ++
        (List.range 8).flatMap (fun i =>
          [intToStr (sa.getD i 0), intToStr (ea.getD i 0), intToStr (lc.getD i 0)]) ++
        [intToStr pfl] := rfl
  rw [h1, h2, hmapc]

/-! ### Concrete records and inputs used by the claims -/

/-- C5: if the byte source ends before a 10-byte fixed field or a matrix
byte can be fully read (its length is below the 1260 header bytes plus the
matrix size the stream itself declares), decode aborts with an error and
returns no record at all — never a partial or zero-filled record. -/
theorem c5_truncation_is_fatal (s : List Nat) (h : s.length < 1260 + 18 * sCols s) :
    parse_pcf_file s = none := by
  rw [parse_pcf_file_eq, if_neg (by intro hh; omega)]

theorem c5_truncation_is_fatal_witness : parse_pcf_file [] = none :=
  c5_truncation_is_fatal [] (by decide)

/-- C8: calling encode on a record whose `clk_sources` does not contain
exactly 65 entries aborts the call with no result (the `assert_eq!` panic,
modelled as `none`); under the precondition `clk_sources.length = 65` the
assertion branch is unreachable and encode proceeds with the rest of its
body (`writeAfterClkAssert`) unchanged. -/
theorem c8_clk_assert (r : PatternFileData) :
    (r.clk_sources.length ≠ 65 → write_pcf_file r = none) ∧
    (r.clk_sources.length = 65 → write_pcf_file r = writeAfterClkAssert r) := by
  constructor
  · intro h
    unfold write_pcf_file
    rw [if_neg h]
  · intro h
    unfold write_pcf_file
    rw [if_pos h]

/-- C9: the encoder does not validate the matrix shape against the declared
`pattern_file_length`.  With rows wider than declared (`c9Rec`: width 3
declared 1) it silently succeeds, truncating the matrix; with rows narrower
than declared (`c9RecSmall`: width 1 declared 2) it aborts by an
out-of-bounds index (a panic, not a descriptive error result). -/
theorem c9_no_shape_validation :
    (c9Rec.pattern_data.getD 0 []).length ≠ (c9Rec.pattern_file_length + 20).toNat ∧
    (write_pcf_file c9Rec).isSome = true ∧
    (c9RecSmall.pattern_data.getD 0 []).length ≠ (c9RecSmall.pattern_file_length + 20).toNat ∧
    write_pcf_file c9RecSmall = none := by
  refine ⟨by decide, ?_, by decide, ?_⟩
  · decide
  · decide

/-- C4: on any stream long enough to decode at all, every malformed numeric
field (one whose trimmed text does not parse as an `i32`) is silently
replaced by 0 — `source_combo_index`, each `pclk_source_indices` entry,
each start/end/loop value and `pattern_file_length` alike — and decode
still returns a record rather than an error. -/
theorem c4_lenient_numeric (s : List Nat) (h : 1260 + 18 * sCols s ≤ s.length) :
    ∃ r, parse_pcf_file s = some r ∧
      (parseI32 (fieldAt s 1) = none → r.source_combo_index = 0) ∧
      (∀ i, i < 8 → parseI32 (fieldAt s (2 + i)) = none → r.pclk_source_indices.getD i 1 = 0) ∧
      (∀ i, i < 8 → parseI32 (fieldAt s (101 + 3 * i)) = none → r.start_addrs.getD i 1 = 0) ∧
      (∀ i, i < 8 → parseI32 (fieldAt s (101 + (3 * i + 1))) = none → r.end_addrs.getD i 1 = 0) ∧
      (∀ i, i < 8 → parseI32 (fieldAt s (101 + (3 * i + 2))) = none → r.loop_counts.getD i 1 = 0) ∧
      (parseI32 (fieldAt s 125) = none → r.pattern_file_length = 0) := by
  refine ⟨decodeTotal s, by rw [parse_pcf_file_eq, if_pos h], ?_, ?_, ?_, ?_, ?_, ?_⟩
  · intro hn
    have he : (decodeTotal s).source_combo_index = parseOr0 (fieldAt s 1) := rfl
    rw [he]
    unfold parseOr0
    rw [hn]
    rfl
  · intro i hi hn
    have he : (decodeTotal s).pclk_source_indices
        = (List.range 8).map (fun j => parseOr0 (fieldAt s (2 + j))) := rfl
    rw [he, map_range_getD _ 8 i 1 hi]
    unfold parseOr0
    rw [hn]
    rfl
  · intro i hi hn
    have he : (decodeTotal s).start_addrs
        = (List.range 8).map (fun j => parseOr0 (fieldAt s (101 + 3 * j))) := rfl
    rw [he, map_range_getD _ 8 i 1 hi]
    unfold parseOr0
    rw [hn]
    rfl
  · intro i hi hn
    have he : (decodeTotal s).end_addrs
        = (List.range 8).map (fun j => parseOr0 (fieldAt s (101 + (3 * j + 1)))) := rfl
    rw [he, map_range_getD _ 8 i 1 hi]
    unfold parseOr0
    rw [hn]
    rfl
  · intro i hi hn
    have he : (decodeTotal s).loop_counts
        = (List.range 8).map (fun j => parseOr0 (fieldAt s (101 + (3 * j + 2)))) := rfl
    rw [he, map_range_getD _ 8 i 1 hi]
    unfold parseOr0
    rw [hn]
    rfl
  · intro hn
    have he : (decodeTotal s).pattern_file_length = parseOr0 (fieldAt s 125) := rfl
    rw [he]
    unfold parseOr0
    rw [hn]
    rfl

theorem c4_lenient_numeric_witness :
    ∃ r, parse_pcf_file c4Stream = some r ∧
      (parseI32 (fieldAt c4Stream 1) = none → r.source_combo_index = 0) ∧
      (∀ i, i < 8 → parseI32 (fieldAt c4Stream (2 + i)) = none →
        r.pclk_source_indices.getD i 1 = 0) ∧
      (∀ i, i < 8 → parseI32 (fieldAt c4Stream (101 + 3 * i)) = none →
        r.start_addrs.getD i 1 = 0) ∧
      (∀ i, i < 8 → parseI32 (fieldAt c4Stream (101 + (3 * i + 1))) = none →
        r.end_addrs.getD i 1 = 0) ∧
      (∀ i, i < 8 → parseI32 (fieldAt c4Stream (101 + (3 * i + 2))) = none →
        r.loop_counts.getD i 1 = 0) ∧
      (parseI32 (fieldAt c4Stream 125) = none → r.pattern_file_length = 0) := by
  have hdrop : c4Stream.drop 1250 = List.replicate 370 32 := by
    show (List.replicate 1620 (32 : Nat)).drop 1250 = List.replicate 370 32
    rw [List.drop_replicate]
  have hfield : fieldAt c4Stream 125 = [] := by
    unfold fieldAt
    rw [show (10 * 125 : Nat) = 1250 from by norm_num, hdrop, List.take_replicate,
      show min 10 370 = 10 from by norm_num, utf8Lossy_replicate_space]
    exact trimEnd_append_replicate_space [] 10
  have hs : sCols c4Stream = 20 := by
    unfold sCols
    rw [hfield]
    rfl
  have hlen : c4Stream.length = 1620 := by
    show (List.replicate 1620 (32 : Nat)).length = 1620
    rw [List.length_replicate]
  exact c4_lenient_numeric c4Stream (by rw [hs, hlen])

/-- C2: a successful encode emits the matrix column-major right after the
1260 header bytes: byte `1260 + 18*col + bit` is `matrix[bit][col]`, with
the column count `writeColsFn` taken from the record's declared
`pattern_file_length` (equal to `pattern_file_length + 20` on the in-range
values), and decode consumes the same bytes in the same column-major
positions. -/
theorem c2_matrix_column_major (r : PatternFileData) (bs : List Nat)
    (hw : write_pcf_file r = some bs) :
    bs.length = 1260 + 18 * writeColsFn r.pattern_file_length ∧
    (∀ col bit, col < writeColsFn r.pattern_file_length → bit < 18 →
      bs.getD (1260 + (18 * col + bit)) 0 = (r.pattern_data.getD bit []).getD col 0) ∧
    (∀ m : Int, -20 ≤ m → m ≤ 2147483627 →
      writeColsFn m = (m + 20).toNat ∧ parseColsFn m = (m + 20).toNat) ∧
    (∀ s r2, parse_pcf_file s = some r2 → ∀ col bit, col < sCols s → bit < 18 →
      (r2.pattern_data.getD bit []).getD col 0 = s.getD (1260 + (18 * col + bit)) 0) := by
  obtain ⟨h65, hbs⟩ := write_some_inv r bs hw
  subst hbs
  refine ⟨?_, ?_, fun m h1 h2 => ⟨writeColsFn_eq m h1 h2, parseColsFn_eq m h1 h2⟩, ?_⟩
  · rw [List.length_append, headerBytes_length, matBytes_length]
    omega
  · intro col bit hc hb
    rw [getD_append_right (by rw [headerBytes_length]; omega) 0, headerBytes_length]
    rw [show 1260 + (18 * col + bit) - 1260 = 18 * col + bit from by omega]
    exact matBytes_getD r col bit hc hb
  · intro s r2 hp col bit hc hb
    obtain ⟨hlen, hr⟩ := parse_some_inv s r2 hp
    subst hr
    have h1 : (decodeTotal s).pattern_data
        = (List.range 18).map (fun b =>
          (List.range (sCols s)).map (fun c => s.getD (1260 + (18 * c + b)) 0)) := rfl
    rw [h1, map_range_getD _ 18 bit [] hb, map_range_getD _ (sCols s) col 0 hc]

theorem c2_matrix_column_major_witness :
    (headerBytes c1WitRec ++ matBytes c1WitRec).length
        = 1260 + 18 * writeColsFn c1WitRec.pattern_file_length ∧
    (∀ col bit, col < writeColsFn c1WitRec.pattern_file_length → bit < 18 →
      (headerBytes c1WitRec ++ matBytes c1WitRec).getD (1260 + (18 * col + bit)) 0
        = (c1WitRec.pattern_data.getD bit []).getD col 0) ∧
    (∀ m : Int, -20 ≤ m → m ≤ 2147483627 →
      writeColsFn m = (m + 20).toNat ∧ parseColsFn m = (m + 20).toNat) ∧
    (∀ s r2, parse_pcf_file s = some r2 → ∀ col bit, col < sCols s → bit < 18 →
      (r2.pattern_data.getD bit []).getD col 0 = s.getD (1260 + (18 * col + bit)) 0) := by
  have hw : write_pcf_file c1WitRec = some (headerBytes c1WitRec ++ matBytes c1WitRec) :=
    write_pcf_file_some c1WitRec (by decide) (by decide) (by decide)
  exact c2_matrix_column_major c1WitRec (headerBytes c1WitRec ++ matBytes c1WitRec) hw

/-- C6: after every successful decode, `clk_sources` has length 65 and
slot 0 is the empty string no matter what the stream held, slots 1..64
coming from fields 37..100; and encode never looks at slot 0: replacing it
by anything leaves the encoded bytes unchanged. -/
theorem c6_clk_sources_index_base :
    (∀ s r, parse_pcf_file s = some r →
      r.clk_sources.length = 65 ∧ r.clk_sources.getD 0 [] = [] ∧
      ∀ i, i < 64 → r.clk_sources.getD (1 + i) [] = fieldAt s (37 + i)) ∧
    (∀ r bs v, write_pcf_file r = some bs →
      write_pcf_file { r with clk_sources := v :: r.clk_sources.tail } = some bs) := by
  constructor
  · intro s r hp
    obtain ⟨hlen, hr⟩ := parse_some_inv s r hp
    subst hr
    refine ⟨?_, rfl, ?_⟩
    · have he : (decodeTotal s).clk_sources
          = [] :: (List.range 64).map (fun j => fieldAt s (37 + j)) := rfl
      rw [he, List.length_cons, List.length_map, List.length_range]
    · intro i hi
      have he : (decodeTotal s).clk_sources
          = [] :: (List.range 64).map (fun j => fieldAt s (37 + j)) := rfl
      have h1 : 1 + i = i + 1 := by omega
      have h2 : (([] : RStr) :: (List.range 64).map (fun j => fieldAt s (37 + j))).getD
          (i + 1) [] = ((List.range 64).map (fun j => fieldAt s (37 + j))).getD i [] := rfl
      rw [he, h1, h2, map_range_getD _ 64 i [] hi]
  · intro r bs v hw
    have h65 : r.clk_sources.length = 65 := (write_some_inv r bs hw).1
    have h65' : ({ r with clk_sources := v :: r.clk_sources.tail }
        : PatternFileData).clk_sources.length = 65 := by
      show (v :: r.clk_sources.tail).length = 65
      rw [List.length_cons, List.length_tail, h65]
    have hne : r.clk_sources ≠ [] := by
      intro hh
      rw [hh] at h65
      exact absurd h65 (by decide)
    have hhf : headerFields { r with clk_sources := v :: r.clk_sources.tail }
        = headerFields r := by
      obtain ⟨cf, ver, sci, pclk, vt, ct, pt, cs, sa, ea, lc, pfl, pd⟩ := r
      exact headerFields_clk0_irrel cf ver sci pclk vt ct pt cs sa ea lc pfl pd v hne
    have hhb : headerBytes { r with clk_sources := v :: r.clk_sources.tail }
        = headerBytes r := by
      unfold headerBytes
      rw [hhf]
    have hwa : writeAfterClkAssert r = some bs := by
      unfold write_pcf_file at hw
      rw [if_pos h65] at hw
      exact hw
    unfold write_pcf_file
    rw [if_pos h65']
    unfold writeAfterClkAssert at hwa ⊢
    show (encodeMatrix r.pattern_data (writeColsFn r.pattern_file_length)).map
        (fun mb => headerBytes { r with clk_sources := v :: r.clk_sources.tail } ++ mb)
      = some bs
    rw [hhb]
    exact hwa

theorem obind_some {q : Type} {b : Type} (x : q) (f : q → Option b) :
    Option.bind (some x) f = f x := rfl

theorem getD_append_left' {q : Type} (l1 l2 : List q) (n : Nat) (d : q)
    (h : n < l1.length) : (l1 ++ l2).getD n d = l1.getD n d := by
  rw [List.getD_eq_getElem?_getD, List.getD_eq_getElem?_getD, List.getElem?_append, if_pos h]

theorem getD_append_right' {q : Type} (l1 l2 : List q) (n : Nat) (d : q)
    (h : l1.length ≤ n) : (l1 ++ l2).getD n d = l2.getD (n - l1.length) d := by
  rw [List.getD_eq_getElem?_getD, List.getD_eq_getElem?_getD, List.getElem?_append,
    if_neg (by intro hh; omega)]

theorem decodeTotal_vt (s : List Nat) : (decodeTotal s).vtime_reqd
    = (List.range 8).map (fun j => fieldAt s (11 + j)) ++ [fieldAt s 10] := rfl

theorem decodeTotal_pfl (s : List Nat) :
    (decodeTotal s).pattern_file_length = parseOr0 (fieldAt s 125) := rfl

theorem decodeTotal_pd (s : List Nat) : (decodeTotal s).pattern_data
    = (List.range 18).map (fun bit => (List.range (sCols s)).map
        (fun col => s.getD (1260 + (18 * col + bit)) 0)) := rfl

/-- C1: the round trip `decode (encode r) = r`.  It holds under
`RoundTripSafe` — text fields that fit the 10-byte fields **and** carry no
trailing whitespace, `clk_sources[0]` empty, integers whose decimal form
fits, a declared length matching the 18-row matrix shape — but not under
the claim's literal precondition (text ≤ 10 bytes, 65 clock sources
alone), which `c1_roundtrip_counterexample` refutes. -/
theorem c1_roundtrip (r : PatternFileData) (h : RoundTripSafe r) :
    (write_pcf_file r).bind parse_pcf_file = some r := by
  obtain ⟨hw, hp⟩ := parse_write_roundTrip r h
  rw [hw, obind_some]
  exact hp

theorem c1_roundtrip_witness :
    (write_pcf_file c1WitRec).bind parse_pcf_file = some c1WitRec :=
  c1_roundtrip c1WitRec (by decide)

theorem c1_roundtrip_counterexample :
    TextFieldsLe10 c1CexRec ∧ c1CexRec.clk_sources.length = 65 ∧
    (write_pcf_file c1CexRec).bind parse_pcf_file ≠ some c1CexRec := by
  refine ⟨by decide, by decide, ?_⟩
  have hw : write_pcf_file c1CexRec = some (headerBytes c1CexRec ++ matBytes c1CexRec) :=
    write_pcf_file_some c1CexRec (by decide) (by decide) (by decide)
  rw [hw, obind_some]
  intro hc
  obtain ⟨hlen, hr⟩ := parse_some_inv _ _ hc
  have h2 : (decodeTotal (headerBytes c1CexRec ++ matBytes c1CexRec)).vtime_reqd.getD 0 []
      = fieldAt (headerBytes c1CexRec ++ matBytes c1CexRec) 11 := by
    rw [decodeTotal_vt, getD_append_left' _ _ 0 [] (by simp),
      map_range_getD _ 8 0 [] (by omega)]
  have h3 : fieldAt (headerBytes c1CexRec ++ matBytes c1CexRec) 11 = [] := by
    rw [fieldAt_encode c1CexRec (matBytes c1CexRec) 11 (by omega)]
    rw [show hfField c1CexRec 11 = [32] from rfl]
    rw [show writeFixed [32] = List.replicate 10 32 from by decide]
    rw [utf8Lossy_replicate_space]
    exact trimEnd_append_replicate_space [] 10
  have h4 : c1CexRec.vtime_reqd.getD 0 [] = [32] := rfl
  rw [hr, h2, h3] at h4
  exact absurd h4 (by decide)

/-- C3: the three 9-slot text arrays are persisted slot-8-first.  Decode
puts field 10 (resp. 19, 28) into slot 8 and fields 11+i (20+i, 29+i) into
slots i = 0..7; encode writes slot `i` of each array into exactly those
10-byte blocks; and a `RoundTripSafe` record gets every slot back in its
original position after encode-then-decode. -/
theorem c3_slot8_first :
    (∀ s r, parse_pcf_file s = some r → ∀ i, i < 9 →
      r.vtime_reqd.getD i [] = fieldAt s (if i = 8 then 10 else 11 + i) ∧
      r.cycle_time.getD i [] = fieldAt s (if i = 8 then 19 else 20 + i) ∧
      r.pulse_time.getD i [] = fieldAt s (if i = 8 then 28 else 29 + i)) ∧
    (∀ r bs, write_pcf_file r = some bs → ∀ i, i < 9 →
      (bs.drop (10 * (if i = 8 then 10 else 11 + i))).take 10
        = writeFixed (r.vtime_reqd.getD i []) ∧
      (bs.drop (10 * (if i = 8 then 19 else 20 + i))).take 10
        = writeFixed (r.cycle_time.getD i []) ∧
      (bs.drop (10 * (if i = 8 then 28 else 29 + i))).take 10
        = writeFixed (r.pulse_time.getD i [])) ∧
    (∀ r, RoundTripSafe r → ∃ r2, (write_pcf_file r).bind parse_pcf_file = some r2 ∧
      ∀ i, i < 9 → r2.vtime_reqd.getD i [] = r.vtime_reqd.getD i [] ∧
        r2.cycle_time.getD i [] = r.cycle_time.getD i [] ∧
        r2.pulse_time.getD i [] = r.pulse_time.getD i []) := by
  refine ⟨?_, ?_, ?_⟩
  · intro s r hp i hi
    obtain ⟨hlen, hr⟩ := parse_some_inv s r hp
    subst hr
    have hev : (decodeTotal s).vtime_reqd
        = (List.range 8).map (fun j => fieldAt s (11 + j)) ++ [fieldAt s (10 + 0)] := rfl
    have hec : (decodeTotal s).cycle_time
        = (List.range 8).map (fun j => fieldAt s (20 + j)) ++ [fieldAt s (19 + 0)] := rfl
    have hep : (decodeTotal s).pulse_time
        = (List.range 8).map (fun j => fieldAt s (29 + j)) ++ [fieldAt s (28 + 0)] := rfl
    by_cases hi8 : i = 8
    · subst hi8
      refine ⟨?_, ?_, ?_⟩
      · rw [if_pos rfl, hev, getD_append_right' _ _ 8 [] (by simp)]
        simp
      · rw [if_pos rfl, hec, getD_append_right' _ _ 8 [] (by simp)]
        simp
      · rw [if_pos rfl, hep, getD_append_right' _ _ 8 [] (by simp)]
        simp
    · refine ⟨?_, ?_, ?_⟩
      · rw [if_neg hi8, hev, getD_append_left' _ _ i []
          (by rw [List.length_map, List.length_range]; omega),
          map_range_getD _ 8 i [] (by omega)]
      · rw [if_neg hi8, hec, getD_append_left' _ _ i []
          (by rw [List.length_map, List.length_range]; omega),
          map_range_getD _ 8 i [] (by omega)]
      · rw [if_neg hi8, hep, getD_append_left' _ _ i []
          (by rw [List.length_map, List.length_range]; omega),
          map_range_getD _ 8 i [] (by omega)]
  · intro r bs hw i hi
    obtain ⟨h65, hbs⟩ := write_some_inv r bs hw
    subst hbs
    by_cases hi8 : i = 8
    · subst hi8
      refine ⟨?_, ?_, ?_⟩
      · rw [if_pos rfl, block_encode r (matBytes r) 10 (by omega), hfField_v8]
      · rw [if_pos rfl, block_encode r (matBytes r) 19 (by omega), hfField_c8]
      · rw [if_pos rfl, block_encode r (matBytes r) 28 (by omega), hfField_p8]
    · refine ⟨?_, ?_, ?_⟩
      · rw [if_neg hi8, block_encode r (matBytes r) (11 + i) (by omega),
          hfField_v07 r i (by omega)]
      · rw [if_neg hi8, block_encode r (matBytes r) (20 + i) (by omega),
          hfField_c07 r i (by omega)]
      · rw [if_neg hi8, block_encode r (matBytes r) (29 + i) (by omega),
          hfField_p07 r i (by omega)]
  · intro r h
    obtain ⟨hw, hp⟩ := parse_write_roundTrip r h
    refine ⟨r, ?_, fun i hi => ⟨rfl, rfl, rfl⟩⟩
    rw [hw, obind_some]
    exact hp

/-- C7: writing a text value of more than 10 UTF-8 bytes stores exactly the
first 10 encoded bytes (truncated mid-character if need be), so decoding
gives the trailing-whitespace trim of the lossy decoding of that 10-byte
prefix; and whenever the prefix is itself the encoding of some string `w`,
the decoded value is `trimEnd w` — which can never equal the original.
The claim's final clause "not the original value" fails for ill-formed
originals (see `c7_truncation_lossy_counterexample`). -/
theorem c7_truncation_lossy (v : RStr) (hv : ValidStr v) (hlen : 10 < utf8Len v) :
    trimEnd (utf8Lossy (writeFixed v)) = trimEnd (utf8Lossy ((utf8Encode v).take 10)) ∧
    ∀ w, ValidStr w → (utf8Encode v).take 10 = utf8Encode w →
      trimEnd (utf8Lossy (writeFixed v)) ≠ v := by
  constructor
  · rw [writeFixed_of_gt v (by omega)]
  · intro w hw hwe hveq
    rw [writeFixed_of_gt v (by omega), hwe, utf8Lossy_encode_eq w hw] at hveq
    have hl10 : utf8Len w = 10 := by
      have hlw : (utf8Encode w).length = ((utf8Encode v).take 10).length := by rw [hwe]
      rw [List.length_take] at hlw
      unfold utf8Len at hlen ⊢
      omega
    have h4 : utf8Encode w
        = utf8Encode (trimEnd w) ++ utf8Encode ((w.reverse.takeWhile isWs).reverse) := by
      rw [← utf8Encode_append, trimEnd_append_rest]
    have hle : utf8Len (trimEnd w) ≤ utf8Len w := by
      unfold utf8Len
      rw [h4, List.length_append]
      omega
    rw [hveq] at hle
    omega

theorem c7_truncation_lossy_witness :
    trimEnd (utf8Lossy (writeFixed c7WitStr))
        = trimEnd (utf8Lossy ((utf8Encode c7WitStr).take 10)) ∧
    ∀ w, ValidStr w → (utf8Encode c7WitStr).take 10 = utf8Encode w →
      trimEnd (utf8Lossy (writeFixed c7WitStr)) ≠ c7WitStr :=
  c7_truncation_lossy c7WitStr (by decide) (by decide)

theorem c7_truncation_lossy_counterexample :
    ValidStr c7CexStr ∧ 10 < utf8Len c7CexStr ∧
    trimEnd (utf8Lossy (writeFixed c7CexStr)) = c7CexStr := by
  refine ⟨by decide, by decide, by decide⟩

/-- C10: the matrix column count is `(pattern_file_length + 20) as usize`
with no lower-bound check.  For a field parsing to `n` with
`-20 ≤ n ≤ -1`, decode succeeds and returns 18 rows of `n + 20` columns
(zero bytes read at `n = -20`); for `n < -20` the cast wraps to the huge
count `n + 20 + 2^64 > 2^63` instead of an error; and encode computes the
identical function of the record's `pattern_file_length`. -/
theorem c10_unguarded_cast (n : Int) (mb : List Nat)
    (h1 : -2147483648 ≤ n) (h2 : n ≤ -1) :
    (-20 ≤ n → mb.length = 18 * (n + 20).toNat →
      ∃ r, parse_pcf_file (c10Header n ++ mb) = some r ∧
        r.pattern_file_length = n ∧ r.pattern_data.length = 18 ∧
        ∀ row ∈ r.pattern_data, row.length = (n + 20).toNat) ∧
    (n < -20 → 9223372036854775808 < parseColsFn n ∧
      parseColsFn n = (n + 20 + 18446744073709551616).toNat) ∧
    (∀ m : Int, writeColsFn m = parseColsFn m) := by
  refine ⟨?_, ?_, fun m => rfl⟩
  · intro hge hmb
    have hdr125 : fieldAt (c10Header n ++ mb) 125 = intToStr n := by
      unfold fieldAt c10Header
      rw [List.append_assoc]
      rw [show (10 * 125 : Nat) = 1250 from by norm_num]
      rw [List.drop_left' (by rw [List.length_replicate])]
      rw [List.take_append_of_le_length (by rw [writeFixed_length])]
      rw [List.take_of_length_le (by rw [writeFixed_length])]
      exact (intFieldRT n (by omega) (by omega)).1
    have hsc : sCols (c10Header n ++ mb) = (n + 20).toNat := by
      unfold sCols
      rw [hdr125, parseOr0_intToStr n (by omega) (by omega),
        parseColsFn_eq n hge (by omega)]
    have hslen : (c10Header n ++ mb).length = 1260 + 18 * (n + 20).toNat := by
      unfold c10Header
      rw [List.length_append, List.length_append, List.length_replicate,
        writeFixed_length, hmb]
    refine ⟨decodeTotal (c10Header n ++ mb),
      by rw [parse_pcf_file_eq, if_pos (by omega)], ?_, ?_, ?_⟩
    · rw [decodeTotal_pfl, hdr125]
      exact parseOr0_intToStr n (by omega) (by omega)
    · rw [decodeTotal_pd, List.length_map, List.length_range]
    · intro row hrow
      rw [decodeTotal_pd] at hrow
      obtain ⟨bit, hbit, hre⟩ := List.mem_map.mp hrow
      rw [← hre, List.length_map, List.length_range, hsc]
  · intro hlt
    unfold parseColsFn i32ToUsize wrap32
    constructor
    · omega
    · omega

theorem c10_unguarded_cast_witness :
    (∃ r, parse_pcf_file (c10Header (-5) ++ List.replicate 270 7) = some r ∧
        r.pattern_file_length = -5 ∧ r.pattern_data.length = 18 ∧
        ∀ row ∈ r.pattern_data, row.length = ((-5 : Int) + 20).toNat) ∧
    (9223372036854775808 < parseColsFn (-21) ∧
      parseColsFn (-21) = ((-21 : Int) + 20 + 18446744073709551616).toNat) := by
  constructor
  · exact (c10_unguarded_cast (-5) (List.replicate 270 7) (by decide) (by decide)).1
      (by decide) (by rw [List.length_replicate]; decide)
  · exact (c10_unguarded_cast (-21) [] (by decide) (by decide)).2.1 (by decide)

end Pcf

